import Mathlib

/-!
# A SOCKS5 proxy handshake: shallow embedding of `socks5.go`

The per-connection handler `handleConnection` and its helpers are embedded as
pure functions over an explicit effect trace.

* A byte is a `Fin 256`; a Go `string` or `[]byte` is a list of bytes.
* The front-facing connection is the finite list of bytes the client delivers
  before its stream ends.
* `net.Dial` is a parameter: a function from the target string to either a
  failure or the addresses of the established connection.
* Every socket operation the handler performs is recorded, in order, as an
  `Event`.  Calls to `log` are not recorded.
* A Go `panic` is an exit of kind `Exit.panicked`; `defer` and `recover` are
  modelled where the source has them.
* One call of `iobridge` is a function of the results of the reads of its
  source and of the errors of the writes of its destination; the two
  goroutines of a session are not run against each other.
-/

namespace Socks5

/-! ## Data model -/

/-- One octet. -/
abbrev Byte := Fin 256

/-- A Go `string` (equally a `[]byte`): a sequence of octets. -/
abbrev GoString := List Byte

/-- The octets of an ASCII literal. -/
def ascii (s : String) : GoString := s.toList.map fun c => Fin.ofNat c.toNat

/-- The values with which the program can panic. -/
inductive PanicVal where
  /-- `io.EOF`: `io.ReadFull` got no byte at all. -/
  | eof
  /-- `io.ErrUnexpectedEOF`: `io.ReadFull` got some bytes, not all. -/
  | unexpectedEOF
  /-- The string `"protocol error"` of `protocolCheck`. -/
  | protocolError
  /-- The string `"domain name too long"`. -/
  | domainNameTooLong
  /-- The string `"invalid address <ipport>"` of `packNetAddr`. -/
  | invalidAddress (ipport : GoString)
  /-- The runtime error of `pair[1]` on a slice of length one. -/
  | indexOutOfRange
  deriving DecidableEq, Repr

/-- The two relay directions started by `performConnect`. -/
inductive Direction where
  | frontToBack
  | backToFront
  deriving DecidableEq, Repr

/-- The observable operations of a session, as they occur. -/
inductive Event where
  /-- A call `readBytes(frontconn, count)` which obtained the bytes `got`;
  it succeeded exactly when `got.length = count`. -/
  | read (count : Nat) (got : List Byte)
  /-- A call `frontconn.Write(bs)`. -/
  | write (bs : List Byte)
  /-- A call `net.Dial("tcp", target)`. -/
  | dial (target : GoString)
  /-- A statement `go iobridge(..)` for one direction. -/
  | spawn (dir : Direction)
  /-- The receive `<-shutdown`. -/
  | awaitShutdown
  /-- The deferred `backconn.Close()`. -/
  | closeBack
  /-- The deferred `frontconn.Close()`. -/
  | closeFront
  deriving DecidableEq, Repr

/-- How a function body was left. -/
inductive Exit where
  | returned
  | panicked (v : PanicVal)
  deriving DecidableEq, Repr

/-- A finished run of a function body: what it did and how it was left. -/
structure Run where
  trace : List Event
  exit : Exit
  deriving DecidableEq, Repr

/-- The run that does `e` first and then behaves as `r`. -/
def Run.after (e : Event) (r : Run) : Run := ⟨e :: r.trace, r.exit⟩

/-- A plain `return`. -/
def Run.ret : Run := ⟨[], .returned⟩

/-- A `panic(v)`. -/
def Run.panic (v : PanicVal) : Run := ⟨[], .panicked v⟩

/-- An established backend connection, as far as the program looks at it:
the strings of `RemoteAddr()` and `LocalAddr()`. -/
structure BackConn where
  remoteAddr : GoString
  localAddr : GoString
  deriving DecidableEq, Repr

/-- The environment's answer to `net.Dial("tcp", target)`; `none` is an error. -/
abbrev Dialer := GoString → Option BackConn

/-! ## Go library functions used by the program -/

/-- A byte that is an ASCII decimal digit, `'0' <= b && b <= '9'`. -/
abbrev IsDigit (b : Byte) : Prop := 48 ≤ b.val ∧ b.val ≤ 57

/-- Decimal digits of `n`, most significant first, in front of `acc`. -/
def itoaAux : Nat → Nat → GoString → GoString
  | 0, _, acc => acc
  | fuel + 1, n, acc =>
    if n < 10 then Fin.ofNat (48 + n) :: acc
    else itoaAux fuel (n / 10) (Fin.ofNat (48 + n % 10) :: acc)

/-- The verb `%d` of `fmt.Sprintf` on a non-negative integer: its decimal
rendering without leading zeros. -/
def itoa (n : Nat) : GoString := itoaAux (n + 1) n []

/-- The digit loop of `strconv.Atoi`: `n = n*10 + int(ch - '0')`, an error on
the first byte that is not a digit. -/
def atoiDigits : Nat → GoString → Option Nat
  | n, [] => some n
  | n, ch :: s =>
    if 48 ≤ ch.val ∧ ch.val ≤ 57 then atoiDigits (n * 10 + (ch.val - 48)) s else none

/-- Go's `strconv.Atoi` where `int` has 64 bits: an optional sign, at least
one digit, nothing but digits, and a value from `-2^63` to `2^63 - 1`; `none`
is an error. -/
def atoi (s : GoString) : Option Int :=
  let body (neg : Bool) (t : GoString) : Option Int :=
    if t = [] then none
    else match atoiDigits 0 t with
      | none => none
      | some n =>
        if neg then (if n ≤ 2 ^ 63 then some (-(n : Int)) else none)
        else (if n < 2 ^ 63 then some (n : Int) else none)
  match s with
  | [] => none
  | c :: t =>
    if c = 45 then body true t
    else if c = 43 then body false t
    else body false (c :: t)

/-- Go's `strings.Split(s, sep)` for a separator of one byte. -/
def split (sep : Byte) : GoString → List GoString
  | [] => [[]]
  | c :: s =>
    if c = sep then [] :: split sep s
    else match split sep s with
      | [] => [[c]]
      | piece :: pieces => (c :: piece) :: pieces

/-- The field loop of Go's IPv4 parser (`parseIPv4Fields` of `net/netip`, on
which `net.ParseIP` rests), reading `s` left to right.  `val` and `digLen`
describe the octet being read, `fields` holds the octets completed, `first`
says that `s` starts the string and `prevDot` that the byte before `s` was a
dot.  An octet above 255, an octet with a leading zero, an empty octet, a byte
that is neither a digit nor a dot, and a number of octets other than four are
errors. -/
def parseIPv4Fields (val digLen : Nat) (fields : List Byte) (first prevDot : Bool) :
    GoString → Option (List Byte)
  | [] => if fields.length < 3 then none else some (fields ++ [Fin.ofNat val])
  | c :: s =>
    if 48 ≤ c.val ∧ c.val ≤ 57 then
      if digLen = 1 ∧ val = 0 then none
      else
        let val1 := val * 10 + (c.val - 48)
        if val1 > 255 then none
        else parseIPv4Fields val1 (digLen + 1) fields false false s
    else if c = 46 then
      if first ∨ s = [] ∨ prevDot then none
      else if fields.length = 3 then none
      else parseIPv4Fields 0 0 (fields ++ [Fin.ofNat val]) false true s
    else none

/-- Go's `net.ParseIP(s).To4()` on a string without a colon (the only kind
`packNetAddr` passes, a piece of a split on `:`): the four octets of a dotted
quad, and `none` (the nil slice) for anything else. -/
def parseIPTo4 (s : GoString) : Option (List Byte) :=
  parseIPv4Fields 0 0 [] true false s

/-- Go's `copy(dst, src)`: the first `min (len dst) (len src)` elements of
`dst` are overwritten. -/
def goCopy (dst src : List Byte) : List Byte :=
  src.take dst.length ++ dst.drop src.length

/-- Go's conversion `byte(i)` of an `int`: the low eight bits. -/
def toByte (i : Int) : Byte := Fin.ofNat (i % 256).toNat

/-! ## The program -/

/-- The body of `packNetAddr(addr, buf)`, given the string `addr.String()`:
the new content of `buf`, or the value of the panic.  The slice `buf` has six
elements wherever the program calls it. -/
def packNetAddr (addr : GoString) (buf : List Byte) : Except PanicVal (List Byte) :=
  let ipport := addr
  let pair := split 58 ipport
  match pair with
  | ipstr :: portstr :: _ =>
    match atoi portstr with
    | none => .error (.invalidAddress ipport)
    | some port =>
      let buf := goCopy (buf.take 4) ((parseIPTo4 ipstr).getD []) ++ buf.drop 4
      let buf := buf.set 4 (toByte (port.tdiv 256))
      let buf := buf.set 5 (toByte (port.tmod 256))
      .ok buf
  | _ => .error .indexOutOfRange

/-- The error of `io.ReadFull` on a stream that ended after the bytes `got`,
fewer than asked for: `io.EOF` when it got none, else `io.ErrUnexpectedEOF`. -/
def shortReadError (got : List Byte) : PanicVal :=
  if got = [] then .eof else .unexpectedEOF

/-- The call `readBytes(conn, count)` followed by the rest `k` of the caller,
which receives the bytes read and what is left of the stream.  `io.ReadFull`
fails when the stream has fewer than `count` bytes left, and `readBytes`
panics with its error. -/
def readBytes (conn : List Byte) (count : Nat) (k : List Byte → List Byte → Run) : Run :=
  if count ≤ conn.length then
    (k (conn.take count) (conn.drop count)).after (.read count (conn.take count))
  else
    (Run.panic (shortReadError conn)).after (.read count conn)

/-- The call `protocolCheck(assert)` followed by the rest `k` of the caller. -/
def protocolCheck (assert : Bool) (k : Run) : Run :=
  if !assert then Run.panic .protocolError else k

/-- The function `errorReplyConnect`. -/
def errorReplyConnect (reason : Byte) : List Byte :=
  [0x05, reason, 0x00, 0x01,
   0x00, 0x00, 0x00, 0x00, 0x00, 0x00]

/-- The call `frontconn.Write(bs)`, whose results the program ignores,
followed by the rest `k` of the caller. -/
def write (bs : List Byte) (k : Run) : Run := k.after (.write bs)

/-- A function body `r` under a `defer` of the operation `e`: `e` happens when
the body is left, by return or by panic, and a panic goes on. -/
def Run.deferring (e : Event) (r : Run) : Run := ⟨r.trace ++ [e], r.exit⟩

/-- The function `performConnect(backend, frontconn)`. -/
def performConnect (dial : Dialer) (backend : GoString) : Run :=
  Run.after (.dial backend) <|
  match dial backend with
  | none => write (errorReplyConnect 0x05) Run.ret
  | some backconn =>
    Run.deferring .closeBack <|
    -- reply to the CONNECT command
    let buf : List Byte := List.replicate 10 0
    let buf := goCopy buf [0x05, 0x00, 0x00, 0x01]
    match packNetAddr backconn.remoteAddr (buf.drop 4) with
    | .error v => Run.panic v
    | .ok tail =>
      let buf := buf.take 4 ++ tail
      write buf <|
      -- bridge connection
      Run.after (.spawn .frontToBack) <|
      Run.after (.spawn .backToFront) <|
      -- wait for either side to close
      Run.after .awaitShutdown Run.ret

/-- The loop of `handleConnection` over the offered methods. -/
def supportLoop : List Byte → Bool
  | [] => false
  | meth :: methods => if meth = 0x00 then true else supportLoop methods

/-- The string `fmt.Sprintf("%d.%d.%d.%d:%d", a, b, c, d, port)`. -/
def sprintfIPv4 (a b c d : Byte) (port : Nat) : GoString :=
  itoa a.val ++ [46] ++ itoa b.val ++ [46] ++ itoa c.val ++ [46] ++ itoa d.val ++ [58] ++ itoa port

/-- The string `fmt.Sprintf("%s:%d", name, port)` for a byte slice `name`. -/
def sprintfDomain (name : List Byte) (port : Nat) : GoString :=
  name ++ [58] ++ itoa port

/-- The body of `handleConnection` below its `defer`, on a front-facing
connection that delivers the bytes `frontconn` and then ends.  An index into a
slice returned by `readBytes` is written with `getD`; it is always in
range. -/
def handleConnectionBody (dial : Dialer) (frontconn : List Byte) : Run :=
  -- receive auth packet
  readBytes frontconn 2 fun buf1 frontconn =>
  protocolCheck (buf1.getD 0 0 = 0x05) <|  -- VER
  let nom := (buf1.getD 1 0).val  -- number of methods
  readBytes frontconn nom fun methods frontconn =>
  let support := supportLoop methods
  if !support then
    -- X'FF' NO ACCEPTABLE METHODS
    write [0x05, 0xff] Run.ret
  else
  -- X'00' NO AUTHENTICATION REQUIRED
  write [0x05, 0x00] <|
  -- recv command packet
  readBytes frontconn 4 fun buf3 frontconn =>
  protocolCheck (buf3.getD 0 0 = 0x05) <|  -- VER
  protocolCheck (buf3.getD 2 0 = 0x00) <|  -- RSV
  let command := buf3.getD 1 0
  if command ≠ 0x01 then  -- 0x01: CONNECT
    -- X'07' Command not supported
    write (errorReplyConnect 0x07) Run.ret
  else
  let addrtype := buf3.getD 3 0
  if addrtype ≠ 0x01 ∧ addrtype ≠ 0x03 then
    -- X'08' Address type not supported
    write (errorReplyConnect 0x08) Run.ret
  else
  if addrtype = 0x01 then  -- 0x01: IP V4 address
    readBytes frontconn 6 fun buf4 _ =>
    let backend := sprintfIPv4 (buf4.getD 0 0) (buf4.getD 1 0) (buf4.getD 2 0) (buf4.getD 3 0)
      ((buf4.getD 4 0).val * 256 + (buf4.getD 5 0).val)
    performConnect dial backend
  else  -- 0x03: DOMAINNAME
    readBytes frontconn 1 fun buf4 frontconn =>
    let nmlen := (buf4.getD 0 0).val  -- domain name length
    if nmlen > 253 then
      Run.panic .domainNameTooLong  -- will be recovered
    else
    readBytes frontconn (nmlen + 2) fun buf5 _ =>
    let backend := sprintfDomain (buf5.take nmlen)
      ((buf5.getD nmlen 0).val * 256 + (buf5.getD (nmlen + 1) 0).val)
    performConnect dial backend

/-- A finished session: everything `handleConnection` did, and the value its
deferred function recovered, if the body panicked. -/
structure Session where
  trace : List Event
  recovered : Option PanicVal
  deriving DecidableEq, Repr

/-- The function `handleConnection(frontconn)`: its body, then the deferred
function, which recovers a panic and closes the front-facing connection. -/
def handleConnection (dial : Dialer) (frontconn : List Byte) : Session :=
  let body := handleConnectionBody dial frontconn
  { trace := body.trace ++ [.closeFront]
    recovered := match body.exit with
      | .returned => none
      | .panicked v => some v }

/-- The part of `handleConnectionBody` from `recv command packet` on, as a
function of what is left of the client stream after the greeting.  It is the
text of `handleConnectionBody` below the greeting reply, named so that the
greeting can be factored out of a proof (`handleConnectionBody_accept`). -/
def requestStage (dial : Dialer) (frontconn : List Byte) : Run :=
  readBytes frontconn 4 fun buf3 frontconn =>
  protocolCheck (buf3.getD 0 0 = 0x05) <|
  protocolCheck (buf3.getD 2 0 = 0x00) <|
  let command := buf3.getD 1 0
  if command ≠ 0x01 then
    write (errorReplyConnect 0x07) Run.ret
  else
  let addrtype := buf3.getD 3 0
  if addrtype ≠ 0x01 ∧ addrtype ≠ 0x03 then
    write (errorReplyConnect 0x08) Run.ret
  else
  if addrtype = 0x01 then
    readBytes frontconn 6 fun buf4 _ =>
    let backend := sprintfIPv4 (buf4.getD 0 0) (buf4.getD 1 0) (buf4.getD 2 0) (buf4.getD 3 0)
      ((buf4.getD 4 0).val * 256 + (buf4.getD 5 0).val)
    performConnect dial backend
  else
    readBytes frontconn 1 fun buf4 frontconn =>
    let nmlen := (buf4.getD 0 0).val
    if nmlen > 253 then
      Run.panic .domainNameTooLong
    else
    readBytes frontconn (nmlen + 2) fun buf5 _ =>
    let backend := sprintfDomain (buf5.take nmlen)
      ((buf5.getD nmlen 0).val * 256 + (buf5.getD (nmlen + 1) 0).val)
    performConnect dial backend

/-- The session of a handler whose body made the run `r`. -/
def Session.ofBody (r : Run) : Session :=
  { trace := r.trace ++ [.closeFront]
    recovered := match r.exit with
      | .returned => none
      | .panicked v => some v }

/-! ## Observations on a trace -/

/-- The byte slices handed to `frontconn.Write`, in order. -/
def writes : List Event → List (List Byte)
  | [] => []
  | .write bs :: t => bs :: writes t
  | _ :: t => writes t

/-- The targets handed to `net.Dial`, in order. -/
def dials : List Event → List GoString
  | [] => []
  | .dial target :: t => target :: dials t
  | _ :: t => dials t

/-- The calls of `readBytes`, in order: the count asked for and the bytes
obtained. -/
def reads : List Event → List (Nat × List Byte)
  | [] => []
  | .read count got :: t => (count, got) :: reads t
  | _ :: t => reads t

/-- The relay directions started, in order. -/
def spawns : List Event → List Direction
  | [] => []
  | .spawn dir :: t => dir :: spawns t
  | _ :: t => spawns t

/-- The number of client bytes obtained by the calls of `readBytes`. -/
def consumed : List Event → Nat
  | [] => 0
  | .read _ got :: t => got.length + consumed t
  | _ :: t => consumed t

/-! ## The relay of one direction -/

/-- The errors of a read or a write, as far as `iobridge` tells them apart. -/
inductive IOErr where
  /-- The value `io.EOF`. -/
  | eof
  /-- A `*net.OpError` whose text is `use of closed network connection`. -/
  | closedConn
  /-- Any other error. -/
  | other
  deriving DecidableEq, Repr

/-- The results `(n, err)` of one call `src.Read(buf)`: the `n` bytes it put at
the front of `buf`, and the error. -/
structure ReadResult where
  data : List Byte
  err : Option IOErr
  deriving DecidableEq, Repr

/-- The function `isUseOfClosedConn`. -/
def isUseOfClosedConn (err : IOErr) : Bool :=
  match err with
  | .closedConn => true
  | _ => false

/-- The observable operations of one call of `iobridge`, as they occur. -/
inductive BridgeEvent where
  /-- A call `src.Read(buf)` and its results. -/
  | read (n : Nat) (err : Option IOErr)
  /-- A call `dst.Write(buf[:n])` with the bytes handed over. -/
  | write (bs : List Byte)
  /-- The call `log.Printf("error reading ..")`. -/
  | logRead (err : IOErr)
  /-- The call `log.Printf("error writing ..")`. -/
  | logWrite (err : IOErr)
  /-- The deferred send `shutdown <- true`. -/
  | signal
  deriving DecidableEq, Repr

/-- The loop of `iobridge`.  The source `src` lists the results of its
successive calls of `Read`; a source whose list is used up has ended and
returns `(0, io.EOF)`.  The destination `dst` gives, for the number of writes
made before, the error of the next `Write`, `none` when it accepts the bytes
in full.  `buf` is the buffer and `i` the number of writes made so far. -/
def iobridgeLoop (dst : Nat → Option IOErr) :
    List ReadResult → List Byte → Nat → List BridgeEvent
  | [], _, _ => [.read 0 (some .eof)]
  | r :: src, buf, i =>
    let buf := goCopy buf r.data
    let n := r.data.length
    match r.err with
    | some err =>
      if !(err = .eof || isUseOfClosedConn err) then
        [.read n (some err), .logRead err]
      else
        [.read n (some err)]
    | none =>
      .read n none :: .write (buf.take n) ::
        match dst i with
        | some err => [.logWrite err]
        | none => iobridgeLoop dst src buf (i + 1)

/-- The function `iobridge(src, dst, shutdown)`: the loop on a buffer of 8192
bytes, then the deferred send on the channel. -/
def iobridge (src : List ReadResult) (dst : Nat → Option IOErr) : List BridgeEvent :=
  iobridgeLoop dst src (List.replicate 8192 0) 0 ++ [.signal]

/-- The byte slices handed to `dst.Write`, in order. -/
def bridgeWrites : List BridgeEvent → List (List Byte)
  | [] => []
  | .write bs :: t => bs :: bridgeWrites t
  | _ :: t => bridgeWrites t

/-- The number of calls of `src.Read`. -/
def bridgeReads : List BridgeEvent → Nat
  | [] => 0
  | .read _ _ :: t => bridgeReads t + 1
  | _ :: t => bridgeReads t

/-- The source whose reads return the chunks `chunks` one by one, without
error, and then behaves as `rest`. -/
def chunked (chunks : List (List Byte)) (rest : List ReadResult) : List ReadResult :=
  chunks.map (fun c => ⟨c, none⟩) ++ rest

/-- The operations of a relay that reads the chunks `chunks` one by one and
hands each to the destination. -/
def relayed : List (List Byte) → List BridgeEvent
  | [] => []
  | c :: chunks => .read c.length none :: .write c :: relayed chunks

/-! ## Decimal rendering and parsing -/

theorem digit_val (d : Nat) (h : d < 10) : ((Fin.ofNat (48 + d) : Byte)).val = 48 + d := by
  simp only [Fin.ofNat]
  omega

theorem ofNat_val (b : Byte) : (Fin.ofNat b.val : Byte) = b := by
  apply Fin.ext
  simp only [Fin.ofNat]
  omega

theorem digitChar_byte (d : Nat) (h : d < 10) :
    (Fin.ofNat (Nat.digitChar d).toNat : Byte) = Fin.ofNat (48 + d) := by
  interval_cases d <;> rfl

theorem itoaAux_toDigitsCore (fuel n : Nat) (cs : List Char) :
    itoaAux fuel n (cs.map fun c => Fin.ofNat c.toNat)
      = (Nat.toDigitsCore 10 fuel n cs).map fun c => Fin.ofNat c.toNat := by
  induction fuel generalizing n cs with
  | zero => rfl
  | succ fuel ih =>
    unfold itoaAux Nat.toDigitsCore
    by_cases h : n < 10
    · have h0 : n / 10 = 0 := by omega
      have hm : n % 10 = n := by omega
      simp [h, h0, hm, digitChar_byte n h]
    · have h0 : ¬ n / 10 = 0 := by omega
      have := ih (n / 10) (Nat.digitChar (n % 10) :: cs)
      simp only [List.map_cons, digitChar_byte (n % 10) (by omega)] at this
      simp [h, h0, this]

/-- The rendering `itoa` is Lean's decimal `toString` of a natural number. -/
theorem itoa_eq_toString (n : Nat) : itoa n = ascii (toString n) := by
  have := itoaAux_toDigitsCore (n + 1) n []
  simpa [itoa, ascii, Nat.repr, Nat.toDigits, List.asString] using this

theorem ascii_append (s t : String) : ascii (s ++ t) = ascii s ++ ascii t := by
  simp [ascii, String.toList]

theorem itoaAux_append (fuel n : Nat) (acc : GoString) :
    itoaAux fuel n acc = itoaAux fuel n [] ++ acc := by
  induction fuel generalizing n acc with
  | zero => rfl
  | succ fuel ih =>
    unfold itoaAux
    by_cases h : n < 10
    · simp [h]
    · simp only [h, if_false]
      rw [ih (n / 10) (_ :: acc), ih (n / 10) [_]]
      simp

theorem itoaAux_digits (fuel n : Nat) (acc : GoString) (hacc : ∀ b ∈ acc, IsDigit b) :
    ∀ b ∈ itoaAux fuel n acc, IsDigit b := by
  induction fuel generalizing n acc with
  | zero => exact hacc
  | succ fuel ih =>
    unfold itoaAux
    by_cases h : n < 10
    · simp only [h, if_true]
      intro b hb
      rcases List.mem_cons.mp hb with rfl | hb
      · simp only [IsDigit, digit_val n h]; omega
      · exact hacc b hb
    · simp only [h, if_false]
      apply ih
      intro b hb
      rcases List.mem_cons.mp hb with rfl | hb
      · simp only [IsDigit, digit_val (n % 10) (by omega)]; omega
      · exact hacc b hb

theorem itoa_digits (n : Nat) : ∀ b ∈ itoa n, IsDigit b :=
  itoaAux_digits (n + 1) n [] (by simp)

theorem itoa_ne_nil (n : Nat) : itoa n ≠ [] := by
  unfold itoa itoaAux
  by_cases h : n < 10
  · simp [h]
  · simp only [h, if_false]
    rw [itoaAux_append]
    simp

theorem atoiDigits_itoaAux (fuel n : Nat) (acc : GoString) (h : n < fuel) :
    atoiDigits 0 (itoaAux fuel n acc) = atoiDigits n acc := by
  induction fuel generalizing n acc with
  | zero => omega
  | succ fuel ih =>
    unfold itoaAux
    by_cases h10 : n < 10
    · simp only [h10, if_true, atoiDigits, digit_val n h10]
      have : 48 ≤ 48 + n ∧ 48 + n ≤ 57 := by omega
      simp [this]
    · simp only [h10, if_false]
      rw [ih (n / 10) _ (by omega)]
      simp only [atoiDigits, digit_val (n % 10) (by omega)]
      have : 48 ≤ 48 + n % 10 ∧ 48 + n % 10 ≤ 57 := by omega
      simp only [this, and_self, if_true]
      congr 1
      omega

/-- Parsing the rendering of a number that fits a 64-bit `int` gives it back. -/
theorem atoi_itoa (n : Nat) (h : n < 2 ^ 63) : atoi (itoa n) = some (n : Int) := by
  have hd := itoa_digits n
  have hp : atoiDigits 0 (itoa n) = some n := by
    unfold itoa
    rw [atoiDigits_itoaAux (n + 1) n [] (by omega)]
    rfl
  cases hs : itoa n with
  | nil => exact absurd hs (itoa_ne_nil n)
  | cons c t =>
    rw [hs] at hd hp
    have hc : IsDigit c := hd c (by simp)
    have h45 : c ≠ 45 := by
      intro e; rw [e] at hc; revert hc; decide
    have h43 : c ≠ 43 := by
      intro e; rw [e] at hc; revert hc; decide
    have h63 : n < 9223372036854775808 := h
    simp [atoi, h45, h43, hp, h63]

/-! ## Splitting and the dotted quad -/

theorem split_ne_nil (sep : Byte) (s : GoString) : split sep s ≠ [] := by
  induction s with
  | nil => simp [split]
  | cons c s ih =>
    unfold split
    by_cases h : c = sep
    · simp [h]
    · simp only [h, if_false]
      cases split sep s <;> simp

theorem split_append (sep : Byte) (s t : GoString) (h : sep ∉ s) :
    split sep (s ++ sep :: t) = s :: split sep t := by
  induction s with
  | nil => simp [split]
  | cons c s ih =>
    have hc : c ≠ sep := fun e => h (by simp [e])
    have hs : sep ∉ s := fun e => h (List.mem_cons_of_mem c e)
    rw [List.cons_append, split, if_neg hc, ih hs]

theorem split_self (sep : Byte) (s : GoString) (h : sep ∉ s) : split sep s = [s] := by
  induction s with
  | nil => simp [split]
  | cons c s ih =>
    have hc : c ≠ sep := fun e => h (by simp [e])
    have hs : sep ∉ s := fun e => h (List.mem_cons_of_mem c e)
    rw [split, if_neg hc, ih hs]

theorem not_mem_itoa (n : Nat) (b : Byte) (hb : ¬ IsDigit b) : b ∉ itoa n :=
  fun h => hb (itoa_digits n b h)

/-- Reading the digits of an octet leaves the field loop with that octet as
the value being read. -/
theorem parseIPv4Fields_itoaAux (fuel n : Nat) (h : n < fuel) (h255 : n ≤ 255) :
    ∃ k, ∀ (fields : List Byte) (first prevDot : Bool) (acc : GoString),
      parseIPv4Fields 0 0 fields first prevDot (itoaAux fuel n acc)
        = parseIPv4Fields n k fields false false acc := by
  induction fuel generalizing n with
  | zero => omega
  | succ fuel ih =>
    by_cases h10 : n < 10
    · refine ⟨1, fun fields first prevDot acc => ?_⟩
      unfold itoaAux
      have hd : 48 ≤ 48 + n ∧ 48 + n ≤ 57 := by omega
      have hle : ¬ (n > 255) := by omega
      simp only [h10, if_true, parseIPv4Fields, digit_val n h10, hd, and_self]
      simp [hle]
    · obtain ⟨k, hk⟩ := ih (n / 10) (by omega) (by omega)
      refine ⟨k + 1, fun fields first prevDot acc => ?_⟩
      unfold itoaAux
      simp only [h10, if_false]
      rw [hk]
      have hd : 48 ≤ 48 + n % 10 ∧ 48 + n % 10 ≤ 57 := by omega
      have hz : ¬ (k = 1 ∧ n / 10 = 0) := by omega
      have hv : n / 10 * 10 + (48 + n % 10 - 48) = n := by omega
      have hle : ¬ (n > 255) := by omega
      simp only [parseIPv4Fields, digit_val (n % 10) (by omega), hd, and_self, if_true, hz,
        if_false, hv, hle]

theorem parseIPv4Fields_octet (x : Byte) :
    ∃ k, ∀ (fields : List Byte) (first prevDot : Bool) (rest : GoString),
      parseIPv4Fields 0 0 fields first prevDot (itoa x.val ++ rest)
        = parseIPv4Fields x.val k fields false false rest := by
  obtain ⟨k, hk⟩ := parseIPv4Fields_itoaAux (x.val + 1) x.val (by omega) (by omega)
  refine ⟨k, fun fields first prevDot rest => ?_⟩
  rw [← hk fields first prevDot rest, itoa, ← itoaAux_append]

theorem parseIPv4Fields_dot (v k : Nat) (fields : List Byte) (s : GoString)
    (hs : s ≠ []) (hf : fields.length < 3) :
    parseIPv4Fields v k fields false false (46 :: s)
      = parseIPv4Fields 0 0 (fields ++ [Fin.ofNat v]) false true s := by
  have h3 : ¬ fields.length = 3 := by omega
  have h46 : ¬ (48 ≤ (46 : Byte).val ∧ (46 : Byte).val ≤ 57) := by decide
  simp [parseIPv4Fields, h46, hs, h3]

/-- The dotted quad of four octets parses back to them. -/
theorem parseIPTo4_quad (a b c d : Byte) :
    parseIPTo4 (itoa a.val ++ [46] ++ itoa b.val ++ [46] ++ itoa c.val ++ [46] ++ itoa d.val)
      = some [a, b, c, d] := by
  obtain ⟨ka, ha⟩ := parseIPv4Fields_octet a
  obtain ⟨kb, hb⟩ := parseIPv4Fields_octet b
  obtain ⟨kc, hc⟩ := parseIPv4Fields_octet c
  obtain ⟨kd, hd⟩ := parseIPv4Fields_octet d
  have nb : itoa b.val ++ 46 :: (itoa c.val ++ 46 :: (itoa d.val ++ [])) ≠ [] := by
    simp [itoa_ne_nil]
  have nc : itoa c.val ++ 46 :: (itoa d.val ++ []) ≠ [] := by simp [itoa_ne_nil]
  have nd : itoa d.val ++ [] ≠ [] := by simp [itoa_ne_nil]
  have e : itoa a.val ++ [46] ++ itoa b.val ++ [46] ++ itoa c.val ++ [46] ++ itoa d.val
      = itoa a.val ++ 46 :: (itoa b.val ++ 46 :: (itoa c.val ++ 46 :: (itoa d.val ++ []))) := by
    simp
  rw [e, parseIPTo4, ha, parseIPv4Fields_dot _ _ _ _ nb (by simp), hb,
    parseIPv4Fields_dot _ _ _ _ nc (by simp), hc,
    parseIPv4Fields_dot _ _ _ _ nd (by simp), hd]
  simp [parseIPv4Fields, ofNat_val]

/-! ## Encoding the address of the backend -/

/-- The string built for an IPv4 request is the text `a.b.c.d:port` in Lean's
own decimal rendering. -/
theorem sprintfIPv4_eq_ascii (a b c d : Byte) (port : Nat) :
    sprintfIPv4 a b c d port
      = ascii (toString a.val ++ "." ++ toString b.val ++ "." ++ toString c.val ++ "."
          ++ toString d.val ++ ":" ++ toString port) := by
  have h46 : ascii "." = [46] := by decide
  have h58 : ascii ":" = [58] := by decide
  simp only [sprintfIPv4, ascii_append, itoa_eq_toString, h46, h58]

/-- The string built for a domain request is the name followed by `:port`. -/
theorem sprintfDomain_eq_ascii (name : List Byte) (port : Nat) :
    sprintfDomain name port = name ++ ascii (":" ++ toString port) := by
  have h58 : ascii ":" = [58] := by decide
  simp only [sprintfDomain, ascii_append, itoa_eq_toString, h58, List.append_assoc]

theorem toByte_natCast (m : Nat) (h : m < 256) : toByte (m : Int) = ⟨m, h⟩ := by
  apply Fin.ext
  simp only [toByte, Fin.ofNat]
  omega

/-- The encoding `packNetAddr` of the rendered IPv4 endpoint `a.b.c.d:p`: the
four octets and the port, high byte first. -/
theorem packNetAddr_sprintfIPv4 (a b c d : Byte) (p : Nat) (hp : p < 65536) :
    packNetAddr (sprintfIPv4 a b c d p) [0, 0, 0, 0, 0, 0]
      = .ok [a, b, c, d, ⟨p / 256, by omega⟩, ⟨p % 256, by omega⟩] := by
  have h58 : ¬ IsDigit 58 := by decide
  have h46 : ¬ IsDigit 46 := by decide
  have hip : (58 : Byte) ∉
      itoa a.val ++ [46] ++ itoa b.val ++ [46] ++ itoa c.val ++ [46] ++ itoa d.val := by
    simp [not_mem_itoa _ _ h58]
  have hsplit : split 58 (sprintfIPv4 a b c d p)
      = [itoa a.val ++ [46] ++ itoa b.val ++ [46] ++ itoa c.val ++ [46] ++ itoa d.val,
         itoa p] := by
    unfold sprintfIPv4
    rw [List.append_assoc _ [58] (itoa p), List.singleton_append, split_append 58 _ _ hip,
      split_self 58 _ (not_mem_itoa p 58 h58)]
  have hport : atoi (itoa p) = some (p : Int) := atoi_itoa p (by omega)
  have hdiv : ((p : Int).tdiv 256) = ((p / 256 : Nat) : Int) := (Int.ofNat_tdiv p 256).symm
  have hmod : ((p : Int).tmod 256) = ((p % 256 : Nat) : Int) := (Int.ofNat_tmod p 256).symm
  simp only [packNetAddr, hsplit, hport, parseIPTo4_quad, hdiv, hmod,
    toByte_natCast (p / 256) (by omega), toByte_natCast (p % 256) (by omega)]
  rfl

/-! ## Reading from the client stream -/

theorem readBytes_append (bs rest : List Byte) (count : Nat) (k : List Byte → List Byte → Run)
    (h : bs.length = count) :
    readBytes (bs ++ rest) count k = (k bs rest).after (.read count bs) := by
  subst h
  simp [readBytes]

theorem readBytes_short (conn : List Byte) (count : Nat) (k : List Byte → List Byte → Run)
    (h : conn.length < count) :
    readBytes conn count k
      = ⟨[.read count conn], .panicked (shortReadError conn)⟩ := by
  simp [readBytes, Nat.not_le.mpr h, Run.after, Run.panic]

theorem readBytes_trace (conn : List Byte) (count : Nat) (k : List Byte → List Byte → Run) :
    ∃ tail, (readBytes conn count k).trace = .read count (conn.take count) :: tail := by
  by_cases h : count ≤ conn.length
  · exact ⟨(k (conn.take count) (conn.drop count)).trace, by simp [readBytes, h, Run.after]⟩
  · refine ⟨[], ?_⟩
    have hlt : conn.length ≤ count := by omega
    simp [readBytes, h, Run.after, Run.panic, List.take_of_length_le hlt]

/-! ## The greeting -/

theorem supportLoop_iff (methods : List Byte) :
    supportLoop methods = true ↔ (0 : Byte) ∈ methods := by
  induction methods with
  | nil => simp [supportLoop]
  | cons m ms ih =>
    by_cases h : m = 0
    · simp [supportLoop, h]
    · simp [supportLoop, h, ih, Ne.symm h]

theorem handleConnection_eq (dial : Dialer) (frontconn : List Byte) :
    handleConnection dial frontconn = Session.ofBody (handleConnectionBody dial frontconn) := rfl

theorem handleConnectionBody_greeting (dial : Dialer) (n : Byte) (methods rest : List Byte)
    (hlen : methods.length = n.val) :
    handleConnectionBody dial (5 :: n :: (methods ++ rest))
      = Run.after (.read 2 [5, n]) (Run.after (.read n.val methods)
          (if supportLoop methods = true then write [5, 0] (requestStage dial rest)
           else write [5, 0xff] Run.ret)) := by
  unfold handleConnectionBody
  rw [show (5 :: n :: (methods ++ rest) : List Byte) = [5, n] ++ (methods ++ rest) from rfl,
    readBytes_append [5, n] (methods ++ rest) 2 _ rfl]
  simp only [List.getD_cons_zero, List.getD_cons_succ, protocolCheck, decide_True, Bool.not_true,
    Bool.false_eq_true, if_false]
  rw [readBytes_append methods rest n.val _ hlen]
  cases hs : supportLoop methods
  · simp
  · simp only [Bool.not_true, Bool.false_eq_true, if_false, if_true]
    rfl

theorem handleConnectionBody_accept (dial : Dialer) (n : Byte) (methods rest : List Byte)
    (hlen : methods.length = n.val) (h0 : (0 : Byte) ∈ methods) :
    handleConnectionBody dial (5 :: n :: (methods ++ rest))
      = Run.after (.read 2 [5, n]) (Run.after (.read n.val methods)
          (write [5, 0] (requestStage dial rest))) := by
  rw [handleConnectionBody_greeting dial n methods rest hlen, (supportLoop_iff methods).mpr h0]
  rfl

theorem handleConnection_accept (dial : Dialer) (n : Byte) (methods rest : List Byte)
    (hlen : methods.length = n.val) (h0 : (0 : Byte) ∈ methods) :
    handleConnection dial (5 :: n :: (methods ++ rest))
      = { trace := [.read 2 [5, n], .read n.val methods, .write [5, 0]]
            ++ (requestStage dial rest).trace ++ [.closeFront]
          recovered := match (requestStage dial rest).exit with
            | .returned => none
            | .panicked v => some v } := by
  rw [handleConnection_eq, handleConnectionBody_accept dial n methods rest hlen h0]
  rfl

/-! ## The command request -/

theorem requestStage_trace (dial : Dialer) (rest : List Byte) :
    ∃ tail, (requestStage dial rest).trace = .read 4 (rest.take 4) :: tail := by
  unfold requestStage
  exact readBytes_trace _ _ _

/-- What `requestStage` does once the four header bytes are there. -/
theorem requestStage_header (dial : Dialer) (v cmd rsv atyp : Byte) (rest : List Byte) :
    requestStage dial (v :: cmd :: rsv :: atyp :: rest)
      = Run.after (.read 4 [v, cmd, rsv, atyp])
          (if v ≠ 5 then Run.panic .protocolError
           else if rsv ≠ 0 then Run.panic .protocolError
           else if cmd ≠ 1 then write (errorReplyConnect 7) Run.ret
           else if atyp ≠ 1 ∧ atyp ≠ 3 then write (errorReplyConnect 8) Run.ret
           else if atyp = 1 then
             readBytes rest 6 fun buf4 _ =>
               performConnect dial
                 (sprintfIPv4 (buf4.getD 0 0) (buf4.getD 1 0) (buf4.getD 2 0) (buf4.getD 3 0)
                   ((buf4.getD 4 0).val * 256 + (buf4.getD 5 0).val))
           else
             readBytes rest 1 fun buf4 frontconn =>
               if (buf4.getD 0 0).val > 253 then Run.panic .domainNameTooLong
               else
                 readBytes frontconn ((buf4.getD 0 0).val + 2) fun buf5 _ =>
                   performConnect dial
                     (sprintfDomain (buf5.take (buf4.getD 0 0).val)
                       ((buf5.getD (buf4.getD 0 0).val 0).val * 256
                         + (buf5.getD ((buf4.getD 0 0).val + 1) 0).val))) := by
  unfold requestStage
  rw [show (v :: cmd :: rsv :: atyp :: rest : List Byte) = [v, cmd, rsv, atyp] ++ rest from rfl,
    readBytes_append [v, cmd, rsv, atyp] rest 4 _ rfl]
  by_cases hv : v = 5 <;> by_cases hr : rsv = 0 <;> simp [protocolCheck, hv, hr]

theorem getD_append_length (name l : List Byte) (i : Nat) (d : Byte) :
    (name ++ l).getD (name.length + i) d = l.getD i d := by
  induction name with
  | nil => simp
  | cons x xs ih =>
    rw [List.cons_append, List.length_cons, Nat.add_right_comm, List.getD_cons_succ]
    exact ih

theorem requestStage_ipv4 (dial : Dialer) (a b c d hi lo : Byte) (rest : List Byte) :
    requestStage dial (5 :: 1 :: 0 :: 1 :: a :: b :: c :: d :: hi :: lo :: rest)
      = Run.after (.read 4 [5, 1, 0, 1]) (Run.after (.read 6 [a, b, c, d, hi, lo])
          (performConnect dial (sprintfIPv4 a b c d (hi.val * 256 + lo.val)))) := by
  rw [requestStage_header]
  rw [show (a :: b :: c :: d :: hi :: lo :: rest : List Byte) = [a, b, c, d, hi, lo] ++ rest
    from rfl, readBytes_append [a, b, c, d, hi, lo] rest 6 _ rfl]
  simp

theorem requestStage_domain (dial : Dialer) (len : Byte) (rest : List Byte) :
    requestStage dial (5 :: 1 :: 0 :: 3 :: len :: rest)
      = Run.after (.read 4 [5, 1, 0, 3]) (Run.after (.read 1 [len])
          (if len.val > 253 then Run.panic .domainNameTooLong
           else readBytes rest (len.val + 2) fun buf5 _ =>
             performConnect dial (sprintfDomain (buf5.take len.val)
               ((buf5.getD len.val 0).val * 256 + (buf5.getD (len.val + 1) 0).val)))) := by
  rw [requestStage_header]
  rw [show (len :: rest : List Byte) = [len] ++ rest from rfl,
    readBytes_append [len] rest 1 _ rfl]
  simp

theorem requestStage_domain_full (dial : Dialer) (len hi lo : Byte) (name rest : List Byte)
    (hname : name.length = len.val) (hlen : len.val ≤ 253) :
    requestStage dial (5 :: 1 :: 0 :: 3 :: len :: (name ++ hi :: lo :: rest))
      = Run.after (.read 4 [5, 1, 0, 3]) (Run.after (.read 1 [len])
          (Run.after (.read (len.val + 2) (name ++ [hi, lo]))
            (performConnect dial (sprintfDomain name (hi.val * 256 + lo.val))))) := by
  rw [requestStage_domain]
  have h253 : ¬ len.val > 253 := by omega
  rw [if_neg h253]
  rw [show (name ++ hi :: lo :: rest : List Byte) = (name ++ [hi, lo]) ++ rest by simp,
    readBytes_append (name ++ [hi, lo]) rest (len.val + 2) _ (by simp [hname])]
  have e1 : (name ++ [hi, lo]).getD len.val 0 = hi := by
    rw [← hname]; exact getD_append_length name [hi, lo] 0 0
  have e2 : (name ++ [hi, lo]).getD (len.val + 1) 0 = lo := by
    rw [← hname]; exact getD_append_length name [hi, lo] 1 0
  have e3 : (name ++ [hi, lo]).take len.val = name := by
    rw [← hname]; simp
  rw [e1, e2, e3]

/-! ## The backend connector -/

theorem performConnect_fail (dial : Dialer) (backend : GoString) (h : dial backend = none) :
    performConnect dial backend
      = ⟨[.dial backend, .write [5, 5, 0, 1, 0, 0, 0, 0, 0, 0]], .returned⟩ := by
  simp [performConnect, h, write, Run.after, Run.ret, errorReplyConnect]

theorem performConnect_ok (dial : Dialer) (backend : GoString) (backconn : BackConn)
    (tail : List Byte) (h : dial backend = some backconn)
    (hp : packNetAddr backconn.remoteAddr [0, 0, 0, 0, 0, 0] = .ok tail) :
    performConnect dial backend
      = ⟨[.dial backend, .write ([5, 0, 0, 1] ++ tail), .spawn .frontToBack,
          .spawn .backToFront, .awaitShutdown, .closeBack], .returned⟩ := by
  have hbuf : (goCopy (List.replicate 10 (0 : Byte)) [5, 0, 0, 1]).drop 4
      = [0, 0, 0, 0, 0, 0] := by decide
  have hbuf4 : (goCopy (List.replicate 10 (0 : Byte)) [5, 0, 0, 1]).take 4
      = [5, 0, 0, 1] := by decide
  simp only [performConnect, h, hbuf, hp, hbuf4]
  simp [write, Run.after, Run.ret, Run.deferring]

theorem performConnect_trace (dial : Dialer) (backend : GoString) :
    ∃ tail, (performConnect dial backend).trace = .dial backend :: tail :=
  ⟨_, rfl⟩

theorem dials_append (t u : List Event) : dials (t ++ u) = dials t ++ dials u := by
  induction t with
  | nil => rfl
  | cons e t ih => cases e <;> simp [dials, ih]

theorem writes_append (t u : List Event) : writes (t ++ u) = writes t ++ writes u := by
  induction t with
  | nil => rfl
  | cons e t ih => cases e <;> simp [writes, ih]

theorem consumed_append (t u : List Event) : consumed (t ++ u) = consumed t + consumed u := by
  induction t with
  | nil => simp [consumed]
  | cons e t ih =>
    cases e
    all_goals simp [consumed, ih]
    all_goals omega

theorem dials_performConnect (dial : Dialer) (backend : GoString) :
    dials (performConnect dial backend).trace = [backend] := by
  unfold performConnect
  cases dial backend with
  | none => simp [write, Run.after, Run.ret, dials]
  | some backconn =>
    simp only []
    cases packNetAddr backconn.remoteAddr
        ((goCopy (List.replicate 10 (0 : Byte)) [5, 0, 0, 1]).drop 4) with
    | error v => simp [Run.after, Run.panic, Run.deferring, dials]
    | ok tail => simp [write, Run.after, Run.ret, Run.deferring, dials, dials_append]

/-! ## Method negotiation -/

/-- C1: for a greeting `[5, n] ++ methods` with `n` method bytes delivered
(and whatever follows them), when `methods` contains `0x00` the handler writes
`[5, 0]` as its first write and its next operation is the 4-byte read of the
command request; when `methods` does not contain `0x00` (also when it is
empty) the session is exactly: the two reads, one write of `[5, 0xFF]`, the
close, and no recovered panic. -/
theorem method_negotiation (dial : Dialer) (n : Byte) (methods rest : List Byte)
    (hlen : methods.length = n.val) :
    ((0 : Byte) ∈ methods → ∃ tail,
      (handleConnection dial (5 :: n :: (methods ++ rest))).trace
        = [.read 2 [5, n], .read n.val methods, .write [5, 0], .read 4 (rest.take 4)] ++ tail)
    ∧ ((0 : Byte) ∉ methods →
      handleConnection dial (5 :: n :: (methods ++ rest))
        = ⟨[.read 2 [5, n], .read n.val methods, .write [5, 0xff], .closeFront], none⟩) := by
  constructor
  · intro h0
    obtain ⟨tail, ht⟩ := requestStage_trace dial rest
    refine ⟨tail ++ [.closeFront], ?_⟩
    rw [handleConnection_accept dial n methods rest hlen h0]
    show _ ++ (requestStage dial rest).trace ++ _ = _
    rw [ht]
    simp
  · intro h0
    have hs : supportLoop methods = false := by
      cases h : supportLoop methods
      · rfl
      · exact absurd ((supportLoop_iff methods).mp h) h0
    rw [handleConnection_eq, handleConnectionBody_greeting dial n methods rest hlen, hs]
    rfl

/-- Witness for C1: a greeting offering methods 1 and 0 is accepted, one
offering only 1 and 2 is rejected. -/
theorem method_negotiation_witness :
    ([1, 0] : List Byte).length = (2 : Byte).val
    ∧ ([1, 2] : List Byte).length = (2 : Byte).val
    ∧ (∃ tail, (handleConnection (fun _ => none) [5, 2, 1, 0, 5, 2, 0, 1, 9]).trace
        = [.read 2 [5, 2], .read 2 [1, 0], .write [5, 0], .read 4 [5, 2, 0, 1]] ++ tail)
    ∧ handleConnection (fun _ => none) [5, 2, 1, 2, 5, 1, 0, 1]
        = ⟨[.read 2 [5, 2], .read 2 [1, 2], .write [5, 0xff], .closeFront], none⟩ :=
  ⟨by decide, by decide,
   (method_negotiation (fun _ => none) 2 [1, 0] [5, 2, 0, 1, 9] (by decide)).1 (by decide),
   (method_negotiation (fun _ => none) 2 [1, 2] [5, 1, 0, 1] (by decide)).2 (by decide)⟩

/-! ## Negotiated rejections of a request -/

/-- C3: after an accepted greeting, a request header `[5, cmd, 0, atyp]` with
`cmd` other than 1 makes the session exactly: the greeting exchange, the read
of the four header bytes, one write of `[5, 7, 0, 1, 0, 0, 0, 0, 0, 0]`, and
the close.  No address byte is read, nothing is dialed, nothing else is
written, whatever `atyp` is and whatever follows the header. -/
theorem unsupported_command (dial : Dialer) (n : Byte) (methods rest : List Byte)
    (cmd atyp : Byte) (hlen : methods.length = n.val) (h0 : (0 : Byte) ∈ methods)
    (hcmd : cmd ≠ 1) :
    handleConnection dial (5 :: n :: (methods ++ 5 :: cmd :: 0 :: atyp :: rest))
      = ⟨[.read 2 [5, n], .read n.val methods, .write [5, 0], .read 4 [5, cmd, 0, atyp],
          .write [5, 7, 0, 1, 0, 0, 0, 0, 0, 0], .closeFront], none⟩ := by
  rw [handleConnection_accept dial n methods _ hlen h0, requestStage_header]
  simp [hcmd, write, Run.after, Run.ret, errorReplyConnect]

/-- Witness for C3: a BIND request (command 2) with an IPv6 address type. -/
theorem unsupported_command_witness :
    ([0] : List Byte).length = (1 : Byte).val ∧ (0 : Byte) ∈ ([0] : List Byte) ∧ (2 : Byte) ≠ 1
    ∧ handleConnection (fun _ => none) [5, 1, 0, 5, 2, 0, 4, 1, 2, 3]
      = ⟨[.read 2 [5, 1], .read 1 [0], .write [5, 0], .read 4 [5, 2, 0, 4],
          .write [5, 7, 0, 1, 0, 0, 0, 0, 0, 0], .closeFront], none⟩ :=
  ⟨by decide, by decide, by decide,
   unsupported_command (fun _ => none) 1 [0] [1, 2, 3] 2 4 (by decide) (by decide) (by decide)⟩

/-- C4: after an accepted greeting, a CONNECT header `[5, 1, 0, atyp]` with
`atyp` other than 1 and 3 makes the session exactly: the greeting exchange,
the read of the four header bytes, one write of
`[5, 8, 0, 1, 0, 0, 0, 0, 0, 0]`, and the close.  No address byte is read and
nothing is dialed. -/
theorem unsupported_address_type (dial : Dialer) (n : Byte) (methods rest : List Byte)
    (atyp : Byte) (hlen : methods.length = n.val) (h0 : (0 : Byte) ∈ methods)
    (h1 : atyp ≠ 1) (h3 : atyp ≠ 3) :
    handleConnection dial (5 :: n :: (methods ++ 5 :: 1 :: 0 :: atyp :: rest))
      = ⟨[.read 2 [5, n], .read n.val methods, .write [5, 0], .read 4 [5, 1, 0, atyp],
          .write [5, 8, 0, 1, 0, 0, 0, 0, 0, 0], .closeFront], none⟩ := by
  rw [handleConnection_accept dial n methods _ hlen h0, requestStage_header]
  simp [h1, h3, write, Run.after, Run.ret, errorReplyConnect]

/-- Witness for C4: a CONNECT request with the IPv6 address type 4. -/
theorem unsupported_address_type_witness :
    ([0] : List Byte).length = (1 : Byte).val ∧ (0 : Byte) ∈ ([0] : List Byte)
    ∧ (4 : Byte) ≠ 1 ∧ (4 : Byte) ≠ 3
    ∧ handleConnection (fun _ => none) [5, 1, 0, 5, 1, 0, 4, 1, 2, 3]
      = ⟨[.read 2 [5, 1], .read 1 [0], .write [5, 0], .read 4 [5, 1, 0, 4],
          .write [5, 8, 0, 1, 0, 0, 0, 0, 0, 0], .closeFront], none⟩ :=
  ⟨by decide, by decide, by decide, by decide,
   unsupported_address_type (fun _ => none) 1 [0] [1, 2, 3] 4 (by decide) (by decide)
     (by decide) (by decide)⟩

/-! ## Backend unreachable -/

/-- C5: when `net.Dial` fails on the target, `performConnect` is exactly the
dial and one write of `[5, 5, 0, 1, 0, 0, 0, 0, 0, 0]`, and returns: no relay
direction is started and no backend connection is closed.  For a CONNECT
request after an accepted greeting, with an IPv4 address or with a domain name
of at most 253 bytes, the whole session is the handshake reads, the greeting
reply, that dial, that write and the close of the front connection. -/
theorem backend_unreachable (dial : Dialer) (n : Byte) (methods rest : List Byte)
    (hlen : methods.length = n.val) (h0 : (0 : Byte) ∈ methods) :
    (∀ backend, dial backend = none →
      performConnect dial backend
        = ⟨[.dial backend, .write [5, 5, 0, 1, 0, 0, 0, 0, 0, 0]], .returned⟩)
    ∧ (∀ a b c d hi lo : Byte,
      dial (sprintfIPv4 a b c d (hi.val * 256 + lo.val)) = none →
      handleConnection dial
          (5 :: n :: (methods ++ 5 :: 1 :: 0 :: 1 :: a :: b :: c :: d :: hi :: lo :: rest))
        = ⟨[.read 2 [5, n], .read n.val methods, .write [5, 0], .read 4 [5, 1, 0, 1],
            .read 6 [a, b, c, d, hi, lo],
            .dial (sprintfIPv4 a b c d (hi.val * 256 + lo.val)),
            .write [5, 5, 0, 1, 0, 0, 0, 0, 0, 0], .closeFront], none⟩)
    ∧ (∀ (len hi lo : Byte) (name : List Byte), name.length = len.val → len.val ≤ 253 →
      dial (sprintfDomain name (hi.val * 256 + lo.val)) = none →
      handleConnection dial
          (5 :: n :: (methods ++ 5 :: 1 :: 0 :: 3 :: len :: (name ++ hi :: lo :: rest)))
        = ⟨[.read 2 [5, n], .read n.val methods, .write [5, 0], .read 4 [5, 1, 0, 3],
            .read 1 [len], .read (len.val + 2) (name ++ [hi, lo]),
            .dial (sprintfDomain name (hi.val * 256 + lo.val)),
            .write [5, 5, 0, 1, 0, 0, 0, 0, 0, 0], .closeFront], none⟩) := by
  refine ⟨fun backend h => performConnect_fail dial backend h, ?_, ?_⟩
  · intro a b c d hi lo hd
    rw [handleConnection_accept dial n methods _ hlen h0, requestStage_ipv4,
      performConnect_fail dial _ hd]
    simp [Run.after]
  · intro len hi lo name hname h253 hd
    rw [handleConnection_accept dial n methods _ hlen h0,
      requestStage_domain_full dial len hi lo name rest hname h253,
      performConnect_fail dial _ hd]
    simp [Run.after]

/-- Witness for C5: a CONNECT to 127.0.0.1:8080 with a dialer that always
fails. -/
theorem backend_unreachable_witness :
    ([0] : List Byte).length = (1 : Byte).val ∧ (0 : Byte) ∈ ([0] : List Byte)
    ∧ handleConnection (fun _ => none) [5, 1, 0, 5, 1, 0, 1, 127, 0, 0, 1, 0x1f, 0x90]
      = ⟨[.read 2 [5, 1], .read 1 [0], .write [5, 0], .read 4 [5, 1, 0, 1],
          .read 6 [127, 0, 0, 1, 0x1f, 0x90], .dial (ascii "127.0.0.1:8080"),
          .write [5, 5, 0, 1, 0, 0, 0, 0, 0, 0], .closeFront], none⟩ :=
  ⟨by decide, by decide,
   (backend_unreachable (fun _ => none) 1 [0] [] (by decide) (by decide)).2.1
     127 0 0 1 0x1f 0x90 rfl⟩

/-! ## The bound on the length of a domain name -/

/-- C6: in a CONNECT request with address type 3 after an accepted greeting,
a length byte of 253 is accepted: the handler reads the following 255 bytes
and its next operation is the dial of `name:port`.  A length byte above 253
(254 or 255) makes the session exactly: the greeting exchange, the read of
the header and of the length byte, and the close, with the panic
`domain name too long` recovered; no name byte is read, nothing is dialed and
the only write is the greeting reply. -/
theorem domain_length_bound (dial : Dialer) (n : Byte) (methods rest : List Byte)
    (hlen : methods.length = n.val) (h0 : (0 : Byte) ∈ methods) :
    (∀ (name : List Byte) (hi lo : Byte), name.length = 253 → ∃ tail,
      (handleConnection dial
          (5 :: n :: (methods ++ 5 :: 1 :: 0 :: 3 :: 253 :: (name ++ hi :: lo :: rest)))).trace
        = [.read 2 [5, n], .read n.val methods, .write [5, 0], .read 4 [5, 1, 0, 3],
            .read 1 [253], .read 255 (name ++ [hi, lo]),
            .dial (name ++ [58] ++ itoa (hi.val * 256 + lo.val))] ++ tail)
    ∧ (∀ len : Byte, len.val > 253 →
      handleConnection dial (5 :: n :: (methods ++ 5 :: 1 :: 0 :: 3 :: len :: rest))
        = ⟨[.read 2 [5, n], .read n.val methods, .write [5, 0], .read 4 [5, 1, 0, 3],
            .read 1 [len], .closeFront], some .domainNameTooLong⟩) := by
  constructor
  · intro name hi lo hname
    obtain ⟨tail, ht⟩ := performConnect_trace dial (sprintfDomain name (hi.val * 256 + lo.val))
    refine ⟨tail ++ [.closeFront], ?_⟩
    rw [handleConnection_accept dial n methods _ hlen h0,
      requestStage_domain_full dial 253 hi lo name rest hname (by decide)]
    simp only [Run.after, ht]
    simp [sprintfDomain]
    rfl
  · intro len hgt
    rw [handleConnection_accept dial n methods _ hlen h0, requestStage_domain, if_pos hgt]
    simp [Run.after, Run.panic]

/-- Witness for C6: a name of 253 bytes `a` is read and dialed with port 80,
and the length byte 254 aborts the session. -/
theorem domain_length_bound_witness :
    ([0] : List Byte).length = (1 : Byte).val ∧ (0 : Byte) ∈ ([0] : List Byte)
    ∧ (List.replicate 253 (97 : Byte)).length = 253
    ∧ (254 : Byte).val > 253
    ∧ (∃ tail,
      (handleConnection (fun _ => none)
          (5 :: 1 :: ([0] ++ 5 :: 1 :: 0 :: 3 :: 253
            :: (List.replicate 253 (97 : Byte) ++ 0 :: 80 :: [])))).trace
        = [.read 2 [5, 1], .read (1 : Byte).val [0], .write [5, 0], .read 4 [5, 1, 0, 3],
            .read 1 [253], .read 255 (List.replicate 253 (97 : Byte) ++ [0, 80]),
            .dial (List.replicate 253 (97 : Byte) ++ [58]
              ++ itoa ((0 : Byte).val * 256 + (80 : Byte).val))] ++ tail)
    ∧ handleConnection (fun _ => none) (5 :: 1 :: ([0] ++ 5 :: 1 :: 0 :: 3 :: 254 :: [1, 2]))
        = ⟨[.read 2 [5, 1], .read (1 : Byte).val [0], .write [5, 0], .read 4 [5, 1, 0, 3],
            .read 1 [254], .closeFront], some .domainNameTooLong⟩ :=
  ⟨by decide, by decide, List.length_replicate 253 97, by decide,
   (domain_length_bound (fun _ => none) 1 [0] [] (by decide) (by decide)).1
     (List.replicate 253 97) 0 80 (List.length_replicate 253 97),
   (domain_length_bound (fun _ => none) 1 [0] [1, 2] (by decide) (by decide)).2 254
     (by decide)⟩

/-! ## Protocol violations -/

/-- C9: a first greeting byte other than 5 makes the session exactly the read
of the two greeting bytes and the close, with `protocol error` recovered:
nothing is written and the method bytes are not read.  After an accepted
greeting, a request header whose version is not 5 or whose reserved byte is
not 0 makes the session exactly the greeting exchange, the read of the header
and the close, with `protocol error` recovered: no command reply is written,
whatever the command and address-type bytes are.  Nothing is dialed in either
case. -/
theorem bad_version_no_reply (dial : Dialer) :
    (∀ (v n : Byte) (rest : List Byte), v ≠ 5 →
      handleConnection dial (v :: n :: rest)
        = ⟨[.read 2 [v, n], .closeFront], some .protocolError⟩)
    ∧ (∀ (n : Byte) (methods rest : List Byte) (v cmd rsv atyp : Byte),
      methods.length = n.val → (0 : Byte) ∈ methods → v ≠ 5 ∨ rsv ≠ 0 →
      handleConnection dial (5 :: n :: (methods ++ v :: cmd :: rsv :: atyp :: rest))
        = ⟨[.read 2 [5, n], .read n.val methods, .write [5, 0],
            .read 4 [v, cmd, rsv, atyp], .closeFront], some .protocolError⟩) := by
  constructor
  · intro v n rest hv
    rw [handleConnection_eq]
    unfold handleConnectionBody
    rw [show (v :: n :: rest : List Byte) = [v, n] ++ rest from rfl,
      readBytes_append [v, n] rest 2 _ rfl]
    simp [protocolCheck, hv, Run.after, Run.panic, Session.ofBody]
  · intro n methods rest v cmd rsv atyp hlen h0 hbad
    rw [handleConnection_accept dial n methods _ hlen h0, requestStage_header]
    by_cases hv : v = 5
    · have hr : rsv ≠ 0 := by
        rcases hbad with h | h
        · exact absurd hv h
        · exact h
      simp [hv, hr, Run.after, Run.panic]
    · simp [hv, Run.after, Run.panic]

/-- Witness for C9: a SOCKS4 greeting, and a request with reserved byte 1
whose command and address type are both unsupported. -/
theorem bad_version_no_reply_witness :
    (4 : Byte) ≠ 5 ∧ ([0] : List Byte).length = (1 : Byte).val
    ∧ (0 : Byte) ∈ ([0] : List Byte) ∧ ((5 : Byte) ≠ 5 ∨ (1 : Byte) ≠ 0)
    ∧ handleConnection (fun _ => none) [4, 1, 0, 5, 1, 0, 1]
        = ⟨[.read 2 [4, 1], .closeFront], some .protocolError⟩
    ∧ handleConnection (fun _ => none) [5, 1, 0, 5, 2, 1, 4, 7]
        = ⟨[.read 2 [5, 1], .read 1 [0], .write [5, 0],
            .read 4 [5, 2, 1, 4], .closeFront], some .protocolError⟩ :=
  ⟨by decide, by decide, by decide, by decide,
   (bad_version_no_reply (fun _ => none)).1 4 1 [0, 5, 1, 0, 1] (by decide),
   (bad_version_no_reply (fun _ => none)).2 1 [0] [7] 5 2 1 4 (by decide) (by decide)
     (by decide)⟩

/-- C10: a client stream that ends before a read step has all its bytes
aborts the session at that step.  In each of the six cases the session is
exactly the operations of the completed steps, the failed read with the bytes
`part` it obtained, and the close, with the read error recovered; nothing is
written after the failed read and nothing is dialed.  The steps are: the
2-byte greeting header, the `n` method bytes (no reply at all, also when
`part` contains `0x00`), the 4-byte request header, the 6 IPv4 bytes, the
length byte, and the `len + 2` domain bytes. -/
theorem short_read_aborts (dial : Dialer) :
    (∀ part : List Byte, part.length < 2 →
      handleConnection dial part
        = ⟨[.read 2 part, .closeFront], some (shortReadError part)⟩)
    ∧ (∀ (n : Byte) (part : List Byte), part.length < n.val →
      handleConnection dial (5 :: n :: part)
        = ⟨[.read 2 [5, n], .read n.val part, .closeFront], some (shortReadError part)⟩)
    ∧ (∀ (n : Byte) (methods part : List Byte),
      methods.length = n.val → (0 : Byte) ∈ methods → part.length < 4 →
      handleConnection dial (5 :: n :: (methods ++ part))
        = ⟨[.read 2 [5, n], .read n.val methods, .write [5, 0], .read 4 part, .closeFront],
            some (shortReadError part)⟩)
    ∧ (∀ (n : Byte) (methods part : List Byte),
      methods.length = n.val → (0 : Byte) ∈ methods → part.length < 6 →
      handleConnection dial (5 :: n :: (methods ++ 5 :: 1 :: 0 :: 1 :: part))
        = ⟨[.read 2 [5, n], .read n.val methods, .write [5, 0], .read 4 [5, 1, 0, 1],
            .read 6 part, .closeFront], some (shortReadError part)⟩)
    ∧ (∀ (n : Byte) (methods : List Byte),
      methods.length = n.val → (0 : Byte) ∈ methods →
      handleConnection dial (5 :: n :: (methods ++ 5 :: 1 :: 0 :: 3 :: []))
        = ⟨[.read 2 [5, n], .read n.val methods, .write [5, 0], .read 4 [5, 1, 0, 3],
            .read 1 [], .closeFront], some .eof⟩)
    ∧ (∀ (n : Byte) (methods : List Byte) (len : Byte) (part : List Byte),
      methods.length = n.val → (0 : Byte) ∈ methods → len.val ≤ 253 →
      part.length < len.val + 2 →
      handleConnection dial (5 :: n :: (methods ++ 5 :: 1 :: 0 :: 3 :: len :: part))
        = ⟨[.read 2 [5, n], .read n.val methods, .write [5, 0], .read 4 [5, 1, 0, 3],
            .read 1 [len], .read (len.val + 2) part, .closeFront],
            some (shortReadError part)⟩) := by
  refine ⟨?_, ?_, ?_, ?_, ?_, ?_⟩
  · intro part h
    rw [handleConnection_eq]
    unfold handleConnectionBody
    rw [readBytes_short part 2 _ h]
    rfl
  · intro n part h
    rw [handleConnection_eq]
    unfold handleConnectionBody
    rw [show (5 :: n :: part : List Byte) = [5, n] ++ part from rfl,
      readBytes_append [5, n] part 2 _ rfl]
    simp only [List.getD_cons_zero, List.getD_cons_succ, protocolCheck, decide_True,
      Bool.not_true, Bool.false_eq_true, if_false]
    rw [readBytes_short part n.val _ h]
    rfl
  · intro n methods part hlen h0 h
    rw [handleConnection_accept dial n methods _ hlen h0]
    unfold requestStage
    rw [readBytes_short part 4 _ h]
    rfl
  · intro n methods part hlen h0 h
    rw [handleConnection_accept dial n methods _ hlen h0, requestStage_header]
    simp only [ne_eq, not_true_eq_false, if_false, if_true, false_and]
    rw [readBytes_short part 6 _ h]
    rfl
  · intro n methods hlen h0
    rw [handleConnection_accept dial n methods _ hlen h0, requestStage_header]
    have h31 : ¬ ((3 : Byte) = 1) := by decide
    simp only [ne_eq, not_true_eq_false, if_false, h31, and_false]
    rw [readBytes_short [] 1 _ (by decide)]
    rfl
  · intro n methods len part hlen h0 h253 h
    rw [handleConnection_accept dial n methods _ hlen h0, requestStage_domain,
      if_neg (by omega), readBytes_short part (len.val + 2) _ h]
    rfl

/-- Witness for C10: an empty stream; a greeting that declares three methods
and delivers `[2, 0]`; and a domain request whose name is cut short. -/
theorem short_read_aborts_witness :
    ([] : List Byte).length < 2 ∧ ([2, 0] : List Byte).length < (3 : Byte).val
    ∧ ([0] : List Byte).length = (1 : Byte).val ∧ (0 : Byte) ∈ ([0] : List Byte)
    ∧ (4 : Byte).val ≤ 253 ∧ ([1, 2, 3] : List Byte).length < (4 : Byte).val + 2
    ∧ handleConnection (fun _ => none) [] = ⟨[.read 2 [], .closeFront], some .eof⟩
    ∧ handleConnection (fun _ => none) [5, 3, 2, 0]
        = ⟨[.read 2 [5, 3], .read 3 [2, 0], .closeFront], some .unexpectedEOF⟩
    ∧ handleConnection (fun _ => none) [5, 1, 0, 5, 1, 0, 3, 4, 1, 2, 3]
        = ⟨[.read 2 [5, 1], .read 1 [0], .write [5, 0], .read 4 [5, 1, 0, 3],
            .read 1 [4], .read 6 [1, 2, 3], .closeFront], some .unexpectedEOF⟩ :=
  ⟨by decide, by decide, by decide, by decide, by decide, by decide,
   (short_read_aborts (fun _ => none)).1 [] (by decide),
   (short_read_aborts (fun _ => none)).2.1 3 [2, 0] (by decide),
   (short_read_aborts (fun _ => none)).2.2.2.2.2 1 [0] 4 [1, 2, 3] (by decide) (by decide)
     (by decide) (by decide)⟩

/-! ## The success reply and the decoded target -/

/-- C2: when the dial succeeds and the remote address of the backend
connection is the IPv4 endpoint `a.b.c.d:p` with `p` at most 65535,
`performConnect` writes as its reply exactly the ten bytes
`[5, 0, 0, 1, a, b, c, d, p / 256, p % 256]`, then starts the two relay
directions, waits and closes the backend.  For a CONNECT request after an
accepted greeting, with an IPv4 address or a domain name, the session is the
handshake followed by exactly that.  `packNetAddr` on `74.125.31.104:80`
yields `[74, 125, 31, 104, 0, 80]`. -/
theorem success_reply (dial : Dialer) (n : Byte) (methods rest : List Byte)
    (hlen : methods.length = n.val) (h0 : (0 : Byte) ∈ methods)
    (a b c d : Byte) (p : Nat) (hp : p < 65536) (backconn : BackConn)
    (hremote : backconn.remoteAddr
      = ascii (toString a.val ++ "." ++ toString b.val ++ "." ++ toString c.val ++ "."
          ++ toString d.val ++ ":" ++ toString p)) :
    (∀ backend, dial backend = some backconn →
      performConnect dial backend
        = ⟨[.dial backend,
            .write [5, 0, 0, 1, a, b, c, d, ⟨p / 256, by omega⟩, ⟨p % 256, by omega⟩],
            .spawn .frontToBack, .spawn .backToFront, .awaitShutdown, .closeBack],
           .returned⟩)
    ∧ (∀ t0 t1 t2 t3 hi lo : Byte,
      dial (sprintfIPv4 t0 t1 t2 t3 (hi.val * 256 + lo.val)) = some backconn →
      handleConnection dial
          (5 :: n :: (methods ++ 5 :: 1 :: 0 :: 1 :: t0 :: t1 :: t2 :: t3 :: hi :: lo :: rest))
        = ⟨[.read 2 [5, n], .read n.val methods, .write [5, 0], .read 4 [5, 1, 0, 1],
            .read 6 [t0, t1, t2, t3, hi, lo],
            .dial (sprintfIPv4 t0 t1 t2 t3 (hi.val * 256 + lo.val)),
            .write [5, 0, 0, 1, a, b, c, d, ⟨p / 256, by omega⟩, ⟨p % 256, by omega⟩],
            .spawn .frontToBack, .spawn .backToFront, .awaitShutdown, .closeBack,
            .closeFront], none⟩)
    ∧ (∀ (len hi lo : Byte) (name : List Byte), name.length = len.val → len.val ≤ 253 →
      dial (sprintfDomain name (hi.val * 256 + lo.val)) = some backconn →
      handleConnection dial
          (5 :: n :: (methods ++ 5 :: 1 :: 0 :: 3 :: len :: (name ++ hi :: lo :: rest)))
        = ⟨[.read 2 [5, n], .read n.val methods, .write [5, 0], .read 4 [5, 1, 0, 3],
            .read 1 [len], .read (len.val + 2) (name ++ [hi, lo]),
            .dial (sprintfDomain name (hi.val * 256 + lo.val)),
            .write [5, 0, 0, 1, a, b, c, d, ⟨p / 256, by omega⟩, ⟨p % 256, by omega⟩],
            .spawn .frontToBack, .spawn .backToFront, .awaitShutdown, .closeBack,
            .closeFront], none⟩)
    ∧ packNetAddr (ascii "74.125.31.104:80") [0, 0, 0, 0, 0, 0]
        = .ok [74, 125, 31, 104, 0, 80] := by
  have hpack : packNetAddr backconn.remoteAddr [0, 0, 0, 0, 0, 0]
      = .ok [a, b, c, d, ⟨p / 256, by omega⟩, ⟨p % 256, by omega⟩] := by
    rw [hremote, ← sprintfIPv4_eq_ascii]
    exact packNetAddr_sprintfIPv4 a b c d p hp
  refine ⟨fun backend h => performConnect_ok dial backend backconn _ h hpack, ?_, ?_, ?_⟩
  · intro t0 t1 t2 t3 hi lo hd
    rw [handleConnection_accept dial n methods _ hlen h0, requestStage_ipv4,
      performConnect_ok dial _ backconn _ hd hpack]
    simp [Run.after]
  · intro len hi lo name hname h253 hd
    rw [handleConnection_accept dial n methods _ hlen h0,
      requestStage_domain_full dial len hi lo name rest hname h253,
      performConnect_ok dial _ backconn _ hd hpack]
    simp [Run.after]
  · have e : ascii "74.125.31.104:80" = sprintfIPv4 74 125 31 104 80 := by decide
    rw [e]
    exact packNetAddr_sprintfIPv4 74 125 31 104 80 (by omega)

/-- Witness for C2: a CONNECT to 10.0.0.1:80 whose backend connection has the
remote address 93.184.216.34:8080. -/
theorem success_reply_witness :
    ([0] : List Byte).length = (1 : Byte).val ∧ (0 : Byte) ∈ ([0] : List Byte)
    ∧ 8080 < 65536
    ∧ handleConnection (fun _ => some ⟨ascii "93.184.216.34:8080", ascii "10.0.0.7:40000"⟩)
        [5, 1, 0, 5, 1, 0, 1, 10, 0, 0, 1, 0, 80, 71, 69, 84]
      = ⟨[.read 2 [5, 1], .read 1 [0], .write [5, 0], .read 4 [5, 1, 0, 1],
          .read 6 [10, 0, 0, 1, 0, 80], .dial (ascii "10.0.0.1:80"),
          .write [5, 0, 0, 1, 93, 184, 216, 34, 0x1f, 0x90],
          .spawn .frontToBack, .spawn .backToFront, .awaitShutdown, .closeBack,
          .closeFront], none⟩ :=
  ⟨by decide, by decide, by decide,
   (success_reply (fun _ => some ⟨ascii "93.184.216.34:8080", ascii "10.0.0.7:40000"⟩)
      1 [0] [71, 69, 84] (by decide) (by decide) 93 184 216 34 8080 (by decide)
      ⟨ascii "93.184.216.34:8080", ascii "10.0.0.7:40000"⟩ (by decide)).2.1
      10 0 0 1 0 80 rfl⟩

/-- C7: for a CONNECT request with address type 1 followed by the six bytes
`a, b, c, d, hi, lo`, after an accepted greeting, the handler dials exactly
once, and the target is the text `A.B.C.D:P` where `A`, `B`, `C`, `D` are the
decimal renderings of the four octets and `P` that of `256 * hi + lo`; `P` is
at most 65535; the bytes `[127, 0, 0, 1, 0x1F, 0x90]` give
`127.0.0.1:8080`. -/
theorem ipv4_decode (dial : Dialer) (n : Byte) (methods rest : List Byte)
    (hlen : methods.length = n.val) (h0 : (0 : Byte) ∈ methods) (a b c d hi lo : Byte) :
    dials (handleConnection dial
        (5 :: n :: (methods ++ 5 :: 1 :: 0 :: 1 :: a :: b :: c :: d :: hi :: lo :: rest))).trace
      = [ascii (toString a.val ++ "." ++ toString b.val ++ "." ++ toString c.val ++ "."
          ++ toString d.val ++ ":" ++ toString (256 * hi.val + lo.val))]
    ∧ 256 * hi.val + lo.val ≤ 65535
    ∧ dials (handleConnection dial
        (5 :: n :: (methods ++ 5 :: 1 :: 0 :: 1 :: 127 :: 0 :: 0 :: 1 :: 0x1F :: 0x90
          :: rest))).trace
      = [ascii "127.0.0.1:8080"] := by
  have key : ∀ a b c d hi lo : Byte,
      dials (handleConnection dial
        (5 :: n :: (methods ++ 5 :: 1 :: 0 :: 1 :: a :: b :: c :: d :: hi :: lo :: rest))).trace
      = [sprintfIPv4 a b c d (hi.val * 256 + lo.val)] := by
    intro a b c d hi lo
    rw [handleConnection_accept dial n methods _ hlen h0, requestStage_ipv4]
    have hd := dials_performConnect dial (sprintfIPv4 a b c d (hi.val * 256 + lo.val))
    generalize performConnect dial (sprintfIPv4 a b c d (hi.val * 256 + lo.val)) = r at hd ⊢
    simp [Run.after, dials, dials_append, hd]
  refine ⟨?_, by omega, ?_⟩
  · rw [key, sprintfIPv4_eq_ascii, Nat.mul_comm]
  · rw [key]
    decide

/-- Witness for C7: the target of a request for 192.168.1.20, port bytes
`[1, 187]`. -/
theorem ipv4_decode_witness :
    ([0] : List Byte).length = (1 : Byte).val ∧ (0 : Byte) ∈ ([0] : List Byte)
    ∧ dials (handleConnection (fun _ => none)
        [5, 1, 0, 5, 1, 0, 1, 192, 168, 1, 20, 1, 187]).trace = [ascii "192.168.1.20:443"] :=
  ⟨by decide, by decide,
   ((ipv4_decode (fun _ => none) 1 [0] [] (by decide) (by decide) 192 168 1 20 1 187).1).trans
     (by decide)⟩

/-- C8: for a CONNECT request with address type 3, a length byte `len` of at
most 253 and `len + 2` following bytes, after an accepted greeting, the
handler dials exactly once, and the target is the `len` name bytes unchanged,
then `:`, then the decimal rendering of `256 * hi + lo` for the last two bytes
read.  The name is arbitrary: it may be empty (the target is then `:P`), and
may contain `:` or any other byte. -/
theorem domain_decode (dial : Dialer) (n : Byte) (methods rest : List Byte)
    (hlen : methods.length = n.val) (h0 : (0 : Byte) ∈ methods)
    (len hi lo : Byte) (name : List Byte) (hname : name.length = len.val)
    (h253 : len.val ≤ 253) :
    dials (handleConnection dial
        (5 :: n :: (methods ++ 5 :: 1 :: 0 :: 3 :: len :: (name ++ hi :: lo :: rest)))).trace
      = [name ++ ascii (":" ++ toString (256 * hi.val + lo.val))]
    ∧ (name = [] →
      dials (handleConnection dial
        (5 :: n :: (methods ++ 5 :: 1 :: 0 :: 3 :: 0 :: hi :: lo :: rest))).trace
      = [ascii (":" ++ toString (256 * hi.val + lo.val))]) := by
  have key : dials (handleConnection dial
        (5 :: n :: (methods ++ 5 :: 1 :: 0 :: 3 :: len :: (name ++ hi :: lo :: rest)))).trace
      = [name ++ ascii (":" ++ toString (256 * hi.val + lo.val))] := by
    rw [handleConnection_accept dial n methods _ hlen h0,
      requestStage_domain_full dial len hi lo name rest hname h253]
    have hd := dials_performConnect dial (sprintfDomain name (hi.val * 256 + lo.val))
    have tgt : name ++ ascii (":" ++ toString (256 * hi.val + lo.val))
        = sprintfDomain name (hi.val * 256 + lo.val) := by
      rw [sprintfDomain_eq_ascii, Nat.mul_comm]
    rw [tgt]
    generalize performConnect dial (sprintfDomain name (hi.val * 256 + lo.val)) = r at hd ⊢
    simp [Run.after, dials, dials_append, hd]
  refine ⟨key, fun hnil => ?_⟩
  subst hnil
  have hl : len = 0 := Fin.ext (by simpa using hname.symm)
  subst hl
  simpa using key

/-- Witness for C8: a name of three bytes that contains a colon and a zero
byte, and the empty name. -/
theorem domain_decode_witness :
    ([0] : List Byte).length = (1 : Byte).val ∧ (0 : Byte) ∈ ([0] : List Byte)
    ∧ ([97, 58, 0] : List Byte).length = (3 : Byte).val ∧ (3 : Byte).val ≤ 253
    ∧ ([] : List Byte).length = (0 : Byte).val ∧ (0 : Byte).val ≤ 253
    ∧ dials (handleConnection (fun _ => none)
        [5, 1, 0, 5, 1, 0, 3, 3, 97, 58, 0, 0, 80]).trace = [[97, 58, 0] ++ ascii ":80"]
    ∧ dials (handleConnection (fun _ => none)
        [5, 1, 0, 5, 1, 0, 3, 0, 0, 80]).trace = [ascii ":80"] :=
  ⟨by decide, by decide, by decide, by decide, by decide, by decide,
   ((domain_decode (fun _ => none) 1 [0] [] (by decide) (by decide) 3 0 80 [97, 58, 0]
      (by decide) (by decide)).1).trans (by decide),
   ((domain_decode (fun _ => none) 1 [0] [] (by decide) (by decide) 0 0 80 []
      (by decide) (by decide)).2 rfl).trans (by decide)⟩

/-! ## Every run of the handler, by cases on the client stream -/

theorem goCopy_length (dst src : List Byte) : (goCopy dst src).length = dst.length := by
  simp only [goCopy, List.length_append, List.length_take, List.length_drop]
  omega

theorem packNetAddr_length (addr : GoString) (buf tail : List Byte)
    (h : packNetAddr addr buf = .ok tail) : tail.length = buf.length := by
  unfold packNetAddr at h
  dsimp only at h
  split at h
  · split at h
    · exact absurd h (by simp)
    · simp only [Except.ok.injEq] at h
      subst h
      simp only [List.length_set, List.length_append, goCopy_length, List.length_take,
        List.length_drop]
      omega
  · exact absurd h (by simp)

/-- The three ways `performConnect` can go. -/
theorem performConnect_cases (dial : Dialer) (backend : GoString) :
    (dial backend = none ∧
      performConnect dial backend
        = ⟨[.dial backend, .write [5, 5, 0, 1, 0, 0, 0, 0, 0, 0]], .returned⟩)
    ∨ (∃ backconn v, dial backend = some backconn
      ∧ packNetAddr backconn.remoteAddr [0, 0, 0, 0, 0, 0] = .error v
      ∧ performConnect dial backend = ⟨[.dial backend, .closeBack], .panicked v⟩)
    ∨ (∃ backconn a b c d hi lo, dial backend = some backconn
      ∧ packNetAddr backconn.remoteAddr [0, 0, 0, 0, 0, 0] = .ok [a, b, c, d, hi, lo]
      ∧ performConnect dial backend
        = ⟨[.dial backend, .write [5, 0, 0, 1, a, b, c, d, hi, lo], .spawn .frontToBack,
            .spawn .backToFront, .awaitShutdown, .closeBack], .returned⟩) := by
  cases hd : dial backend with
  | none => exact Or.inl ⟨rfl, performConnect_fail dial backend hd⟩
  | some backconn =>
    right
    cases hp : packNetAddr backconn.remoteAddr [0, 0, 0, 0, 0, 0] with
    | error v =>
      left
      refine ⟨backconn, v, rfl, hp, ?_⟩
      have hbuf : (goCopy (List.replicate 10 (0 : Byte)) [5, 0, 0, 1]).drop 4
          = [0, 0, 0, 0, 0, 0] := by decide
      simp only [performConnect, hd, hbuf, hp]
      simp [Run.after, Run.panic, Run.deferring]
    | ok tail =>
      right
      have hl := packNetAddr_length _ _ _ hp
      obtain ⟨a, b, c, d, hi, lo, rfl⟩ : ∃ a b c d hi lo, tail = [a, b, c, d, hi, lo] := by
        rcases tail with _ | ⟨a, _ | ⟨b, _ | ⟨c, _ | ⟨d, _ | ⟨hi, _ | ⟨lo, _ | ⟨x, t⟩⟩⟩⟩⟩⟩⟩ <;>
          simp at hl
        exact ⟨a, b, c, d, hi, lo, rfl⟩
      exact ⟨backconn, a, b, c, d, hi, lo, rfl, hp,
        performConnect_ok dial backend backconn _ hd hp⟩

/-- The ten ways the request stage can go, by the shape of what is left of the
client stream after the greeting. -/
theorem requestStage_cases (dial : Dialer) (rest : List Byte) :
    (rest.length < 4
      ∧ requestStage dial rest = ⟨[.read 4 rest], .panicked (shortReadError rest)⟩)
    ∨ (∃ v cmd rsv atyp r, rest = v :: cmd :: rsv :: atyp :: r ∧ (v ≠ 5 ∨ rsv ≠ 0)
      ∧ requestStage dial rest = ⟨[.read 4 [v, cmd, rsv, atyp]], .panicked .protocolError⟩)
    ∨ (∃ cmd atyp r, rest = 5 :: cmd :: 0 :: atyp :: r ∧ cmd ≠ 1
      ∧ requestStage dial rest
        = ⟨[.read 4 [5, cmd, 0, atyp], .write [5, 7, 0, 1, 0, 0, 0, 0, 0, 0]], .returned⟩)
    ∨ (∃ atyp r, rest = 5 :: 1 :: 0 :: atyp :: r ∧ atyp ≠ 1 ∧ atyp ≠ 3
      ∧ requestStage dial rest
        = ⟨[.read 4 [5, 1, 0, atyp], .write [5, 8, 0, 1, 0, 0, 0, 0, 0, 0]], .returned⟩)
    ∨ (∃ r, rest = 5 :: 1 :: 0 :: 1 :: r ∧ r.length < 6
      ∧ requestStage dial rest
        = ⟨[.read 4 [5, 1, 0, 1], .read 6 r], .panicked (shortReadError r)⟩)
    ∨ (∃ a b c d hi lo r, rest = 5 :: 1 :: 0 :: 1 :: a :: b :: c :: d :: hi :: lo :: r
      ∧ requestStage dial rest
        = Run.after (.read 4 [5, 1, 0, 1]) (Run.after (.read 6 [a, b, c, d, hi, lo])
            (performConnect dial (sprintfIPv4 a b c d (hi.val * 256 + lo.val)))))
    ∨ (rest = [5, 1, 0, 3]
      ∧ requestStage dial rest = ⟨[.read 4 [5, 1, 0, 3], .read 1 []], .panicked .eof⟩)
    ∨ (∃ len r, rest = 5 :: 1 :: 0 :: 3 :: len :: r ∧ len.val > 253
      ∧ requestStage dial rest
        = ⟨[.read 4 [5, 1, 0, 3], .read 1 [len]], .panicked .domainNameTooLong⟩)
    ∨ (∃ len r, rest = 5 :: 1 :: 0 :: 3 :: len :: r ∧ len.val ≤ 253 ∧ r.length < len.val + 2
      ∧ requestStage dial rest
        = ⟨[.read 4 [5, 1, 0, 3], .read 1 [len], .read (len.val + 2) r],
            .panicked (shortReadError r)⟩)
    ∨ (∃ len name hi lo r, rest = 5 :: 1 :: 0 :: 3 :: len :: (name ++ hi :: lo :: r)
      ∧ name.length = len.val ∧ len.val ≤ 253
      ∧ requestStage dial rest
        = Run.after (.read 4 [5, 1, 0, 3]) (Run.after (.read 1 [len])
            (Run.after (.read (len.val + 2) (name ++ [hi, lo]))
              (performConnect dial (sprintfDomain name (hi.val * 256 + lo.val)))))) := by
  rcases rest with _ | ⟨v, _ | ⟨cmd, _ | ⟨rsv, _ | ⟨atyp, r⟩⟩⟩⟩
  · exact Or.inl ⟨by simp, by unfold requestStage; rw [readBytes_short _ 4 _ (by simp)]⟩
  · exact Or.inl ⟨by simp, by unfold requestStage; rw [readBytes_short _ 4 _ (by simp)]⟩
  · exact Or.inl ⟨by simp, by unfold requestStage; rw [readBytes_short _ 4 _ (by simp)]⟩
  · exact Or.inl ⟨by simp, by unfold requestStage; rw [readBytes_short _ 4 _ (by simp)]⟩
  right
  by_cases hbad : v ≠ 5 ∨ rsv ≠ 0
  · left
    refine ⟨v, cmd, rsv, atyp, r, rfl, hbad, ?_⟩
    rw [requestStage_header]
    by_cases hv : v = 5
    · have hr : rsv ≠ 0 := by
        rcases hbad with h | h
        · exact absurd hv h
        · exact h
      simp [hv, hr, Run.after, Run.panic]
    · simp [hv, Run.after, Run.panic]
  right
  have hv : v = 5 := by
    by_contra h; exact hbad (Or.inl h)
  have hr : rsv = 0 := by
    by_contra h; exact hbad (Or.inr h)
  subst hv hr
  by_cases hcmd : cmd = 1
  swap
  · left
    refine ⟨cmd, atyp, r, rfl, hcmd, ?_⟩
    rw [requestStage_header]
    simp [hcmd, write, Run.after, Run.ret, errorReplyConnect]
  right
  subst hcmd
  by_cases h1 : atyp = 1
  · subst h1
    right
    by_cases hlen : r.length < 6
    · left
      refine ⟨r, rfl, hlen, ?_⟩
      rw [requestStage_header]
      simp only [ne_eq, not_true_eq_false, if_false, if_true, false_and]
      rw [readBytes_short r 6 _ hlen]
      rfl
    · right; left
      rcases r with _ | ⟨a, _ | ⟨b, _ | ⟨c, _ | ⟨d, _ | ⟨hi, _ | ⟨lo, r⟩⟩⟩⟩⟩⟩ <;>
        simp at hlen
      exact ⟨a, b, c, d, hi, lo, r, rfl, requestStage_ipv4 dial a b c d hi lo r⟩
  by_cases h3 : atyp = 3
  swap
  · left
    refine ⟨atyp, r, rfl, h1, h3, ?_⟩
    rw [requestStage_header]
    simp [h1, h3, write, Run.after, Run.ret, errorReplyConnect]
  subst h3
  right; right; right
  rcases r with _ | ⟨len, r⟩
  · left
    refine ⟨rfl, ?_⟩
    rw [requestStage_header]
    have h31 : ¬ ((3 : Byte) = 1) := by decide
    simp only [ne_eq, not_true_eq_false, if_false, h31, and_false]
    rw [readBytes_short [] 1 _ (by decide)]
    rfl
  right
  by_cases hgt : len.val > 253
  · left
    refine ⟨len, r, rfl, hgt, ?_⟩
    rw [requestStage_domain, if_pos hgt]
    rfl
  right
  by_cases hshort : r.length < len.val + 2
  · left
    refine ⟨len, r, rfl, by omega, hshort, ?_⟩
    rw [requestStage_domain, if_neg hgt, readBytes_short r (len.val + 2) _ hshort]
    rfl
  right
  have hsplit := List.take_append_drop len.val r
  have hname : (r.take len.val).length = len.val := by
    rw [List.length_take]; omega
  have hdrop : 2 ≤ (r.drop len.val).length := by
    rw [List.length_drop]; omega
  generalize r.take len.val = name at hsplit hname
  generalize r.drop len.val = rem at hsplit hdrop
  rcases rem with _ | ⟨hi, _ | ⟨lo, r2⟩⟩
  · simp at hdrop
  · simp at hdrop
  subst hsplit
  exact ⟨len, name, hi, lo, r2, rfl, hname, by omega,
    requestStage_domain_full dial len hi lo name r2 hname (by omega)⟩

/-- The five ways the body of the handler can go up to the greeting reply, by
the shape of the client stream. -/
theorem handleConnectionBody_cases (dial : Dialer) (input : List Byte) :
    (input.length < 2
      ∧ handleConnectionBody dial input
        = ⟨[.read 2 input], .panicked (shortReadError input)⟩)
    ∨ (∃ v n r, input = v :: n :: r ∧ v ≠ 5
      ∧ handleConnectionBody dial input = ⟨[.read 2 [v, n]], .panicked .protocolError⟩)
    ∨ (∃ n part, input = 5 :: n :: part ∧ part.length < n.val
      ∧ handleConnectionBody dial input
        = ⟨[.read 2 [5, n], .read n.val part], .panicked (shortReadError part)⟩)
    ∨ (∃ n methods rest, input = 5 :: n :: (methods ++ rest) ∧ methods.length = n.val
      ∧ (0 : Byte) ∉ methods
      ∧ handleConnectionBody dial input
        = ⟨[.read 2 [5, n], .read n.val methods, .write [5, 0xff]], .returned⟩)
    ∨ (∃ n methods rest, input = 5 :: n :: (methods ++ rest) ∧ methods.length = n.val
      ∧ (0 : Byte) ∈ methods
      ∧ handleConnectionBody dial input
        = Run.after (.read 2 [5, n]) (Run.after (.read n.val methods)
            (write [5, 0] (requestStage dial rest)))) := by
  rcases input with _ | ⟨v, _ | ⟨n, r⟩⟩
  · exact Or.inl ⟨by simp, by unfold handleConnectionBody; rw [readBytes_short _ 2 _ (by simp)]⟩
  · exact Or.inl ⟨by simp, by unfold handleConnectionBody; rw [readBytes_short _ 2 _ (by simp)]⟩
  right
  by_cases hv : v = 5
  swap
  · left
    refine ⟨v, n, r, rfl, hv, ?_⟩
    unfold handleConnectionBody
    rw [show (v :: n :: r : List Byte) = [v, n] ++ r from rfl,
      readBytes_append [v, n] r 2 _ rfl]
    simp [protocolCheck, hv, Run.after, Run.panic]
  subst hv
  right
  by_cases hshort : r.length < n.val
  · left
    refine ⟨n, r, rfl, hshort, ?_⟩
    unfold handleConnectionBody
    rw [show (5 :: n :: r : List Byte) = [5, n] ++ r from rfl,
      readBytes_append [5, n] r 2 _ rfl]
    simp only [List.getD_cons_zero, List.getD_cons_succ, protocolCheck, decide_True,
      Bool.not_true, Bool.false_eq_true, if_false]
    rw [readBytes_short r n.val _ hshort]
    rfl
  right
  have hsplit := List.take_append_drop n.val r
  have hlen : (r.take n.val).length = n.val := by
    rw [List.length_take]; omega
  generalize r.take n.val = methods at hsplit hlen
  generalize r.drop n.val = rest at hsplit
  subst hsplit
  by_cases h0 : (0 : Byte) ∈ methods
  · right
    exact ⟨n, methods, rest, rfl, hlen, h0, handleConnectionBody_accept dial n methods rest hlen h0⟩
  · left
    refine ⟨n, methods, rest, rfl, hlen, h0, ?_⟩
    have hs : supportLoop methods = false := by
      cases h : supportLoop methods
      · rfl
      · exact absurd ((supportLoop_iff methods).mp h) h0
    rw [handleConnectionBody_greeting dial n methods rest hlen, hs]
    rfl

/-! ## The framing of the replies -/

/-- C11: for every client stream and every dialer, the writes of the handler
are one of: none; `[5, 0xFF]` alone; `[5, 0]` alone; or `[5, 0]` followed by
exactly one command reply.  A command reply is ten bytes
`[5, rep, 0, 1, a, b, c, d, hi, lo]` with `rep` one of 0, 5, 7, 8, and the six
address and port bytes are zero whenever `rep` is not 0. -/
theorem reply_framing (dial : Dialer) (input : List Byte) :
    writes (handleConnection dial input).trace = []
    ∨ writes (handleConnection dial input).trace = [[5, 0xff]]
    ∨ writes (handleConnection dial input).trace = [[5, 0]]
    ∨ ∃ rep a b c d hi lo,
        writes (handleConnection dial input).trace
          = [[5, 0], [5, rep, 0, 1, a, b, c, d, hi, lo]]
        ∧ (rep = 0 ∨ rep = 5 ∨ rep = 7 ∨ rep = 8)
        ∧ (rep ≠ 0 → a = 0 ∧ b = 0 ∧ c = 0 ∧ d = 0 ∧ hi = 0 ∧ lo = 0) := by
  have zeros : (0 : Byte) = 0 ∧ (0 : Byte) = 0 ∧ (0 : Byte) = 0 ∧ (0 : Byte) = 0
      ∧ (0 : Byte) = 0 ∧ (0 : Byte) = 0 := ⟨rfl, rfl, rfl, rfl, rfl, rfl⟩
  have connect : ∀ (pre : List Event) (backend : GoString), writes pre = [] →
      writes (pre ++ (performConnect dial backend).trace ++ [.closeFront]) = [] ∨
      ∃ rep a b c d hi lo,
        writes (pre ++ (performConnect dial backend).trace ++ [.closeFront])
          = [[5, rep, 0, 1, a, b, c, d, hi, lo]]
        ∧ (rep = 0 ∨ rep = 5 ∨ rep = 7 ∨ rep = 8)
        ∧ (rep ≠ 0 → a = 0 ∧ b = 0 ∧ c = 0 ∧ d = 0 ∧ hi = 0 ∧ lo = 0) := by
    intro pre backend hpre
    rcases performConnect_cases dial backend with ⟨_, hp⟩ | ⟨_, _, _, _, hp⟩
      | ⟨_, a, b, c, d, hi, lo, _, _, hp⟩
    · right
      refine ⟨5, 0, 0, 0, 0, 0, 0, ?_, by decide, fun _ => zeros⟩
      rw [hp]
      simp [writes_append, hpre, writes]
    · left
      rw [hp]
      simp [writes_append, hpre, writes]
    · right
      refine ⟨0, a, b, c, d, hi, lo, ?_, by decide, fun h => absurd rfl h⟩
      rw [hp]
      simp [writes_append, hpre, writes]
  rw [handleConnection_eq]
  rcases handleConnectionBody_cases dial input with ⟨_, hb⟩ | ⟨v, n, r, _, _, hb⟩
    | ⟨n, part, _, _, hb⟩ | ⟨n, methods, rest, _, _, _, hb⟩ | ⟨n, methods, rest, _, _, _, hb⟩
  · left; rw [hb]; rfl
  · left; rw [hb]; rfl
  · left; rw [hb]; rfl
  · right; left; rw [hb]; rfl
  right; right
  rw [hb]
  have step : ∀ r : Run,
      writes (Session.ofBody (Run.after (.read 2 [5, n]) (Run.after (.read n.val methods)
        (write [5, 0] r)))).trace = [5, 0] :: writes (r.trace ++ [.closeFront]) := fun _ => rfl
  rw [step]
  rcases requestStage_cases dial rest with ⟨_, hr⟩ | ⟨_, _, _, _, _, _, _, hr⟩
    | ⟨cmd, atyp, _, _, _, hr⟩ | ⟨atyp, _, _, _, _, hr⟩ | ⟨_, _, _, hr⟩
    | ⟨a, b, c, d, hi, lo, _, _, hr⟩ | ⟨_, hr⟩ | ⟨_, _, _, _, hr⟩ | ⟨_, _, _, _, _, hr⟩
    | ⟨len, name, hi, lo, _, _, _, _, hr⟩
  · left; rw [hr]; rfl
  · left; rw [hr]; rfl
  · right
    exact ⟨7, 0, 0, 0, 0, 0, 0, by rw [hr]; rfl, by decide, fun _ => zeros⟩
  · right
    exact ⟨8, 0, 0, 0, 0, 0, 0, by rw [hr]; rfl, by decide, fun _ => zeros⟩
  · left; rw [hr]; rfl
  · rw [hr]
    rcases connect [.read 4 [5, 1, 0, 1], .read 6 [a, b, c, d, hi, lo]] _ rfl with h | h
    · left
      exact congrArg _ h
    · right
      obtain ⟨rep, a, b, c, d, hi, lo, h, hrep, hz⟩ := h
      exact ⟨rep, a, b, c, d, hi, lo, congrArg _ h, hrep, hz⟩
  · left; rw [hr]; rfl
  · left; rw [hr]; rfl
  · left; rw [hr]; rfl
  · rw [hr]
    rcases connect [.read 4 [5, 1, 0, 3], .read 1 [len],
      .read (len.val + 2) (name ++ [hi, lo])] _ rfl with h | h
    · left
      exact congrArg _ h
    · right
      obtain ⟨rep, a, b, c, d, hi, lo, h, hrep, hz⟩ := h
      exact ⟨rep, a, b, c, d, hi, lo, congrArg _ h, hrep, hz⟩

/-! ## Closing the sockets -/

theorem closes_performConnect (dial : Dialer) (backend : GoString) :
    (performConnect dial backend).trace.count .closeFront = 0
    ∧ (performConnect dial backend).trace.count .closeBack
        = (if (dial backend).isSome then 1 else 0)
    ∧ dials (performConnect dial backend).trace = [backend] := by
  rcases performConnect_cases dial backend with ⟨hd, hp⟩ | ⟨_, _, hd, _, hp⟩
    | ⟨_, a, b, c, d, hi, lo, hd, _, hp⟩ <;>
  · rw [hp, hd]
    simp [List.count_cons, dials]

/-- C12: for every client stream and every dialer, the trace of
`handleConnection` has exactly one close of the front-facing connection, and
it is the last operation; it has one close of the backend connection when the
dial (there is at most one) succeeded and none otherwise.  A panic of the body,
whatever its value, is recovered by the handler. -/
theorem sockets_closed_once (dial : Dialer) (input : List Byte) :
    (handleConnection dial input).trace.count .closeFront = 1
    ∧ (handleConnection dial input).trace.getLast? = some .closeFront
    ∧ (dials (handleConnection dial input).trace).length ≤ 1
    ∧ (handleConnection dial input).trace.count .closeBack
        = (if (dials (handleConnection dial input).trace).any (fun t => (dial t).isSome)
           then 1 else 0)
    ∧ (∀ v, (handleConnectionBody dial input).exit = .panicked v →
        (handleConnection dial input).recovered = some v) := by
  have connect : ∀ (pre : List Event) (backend : GoString) (x : Exit),
      pre.count .closeFront = 0 → pre.count .closeBack = 0 → dials pre = [] →
      (Session.ofBody ⟨pre ++ (performConnect dial backend).trace, x⟩).trace.count .closeFront = 1
      ∧ (dials (Session.ofBody ⟨pre ++ (performConnect dial backend).trace, x⟩).trace).length ≤ 1
      ∧ (Session.ofBody ⟨pre ++ (performConnect dial backend).trace, x⟩).trace.count .closeBack
        = (if (dials (Session.ofBody ⟨pre ++ (performConnect dial backend).trace, x⟩).trace).any
              (fun t => (dial t).isSome) then 1 else 0) := by
    intro pre backend x h1 h2 h3
    obtain ⟨c1, c2, c3⟩ := closes_performConnect dial backend
    simp only [Session.ofBody, List.count_append, dials_append, h1, h2, h3, c1, c2, c3]
    simp [List.count_cons, dials]
  have main : (handleConnection dial input).trace.count .closeFront = 1
      ∧ (dials (handleConnection dial input).trace).length ≤ 1
      ∧ (handleConnection dial input).trace.count .closeBack
        = (if (dials (handleConnection dial input).trace).any (fun t => (dial t).isSome)
           then 1 else 0) := by
    rw [handleConnection_eq]
    rcases handleConnectionBody_cases dial input with ⟨_, hb⟩ | ⟨v, n, r, _, _, hb⟩
      | ⟨n, part, _, _, hb⟩ | ⟨n, methods, rest, _, _, _, hb⟩
      | ⟨n, methods, rest, _, _, _, hb⟩
    · rw [hb]; simp [Session.ofBody, List.count_cons, dials]
    · rw [hb]; simp [Session.ofBody, List.count_cons, dials]
    · rw [hb]; simp [Session.ofBody, List.count_cons, dials]
    · rw [hb]; simp [Session.ofBody, List.count_cons, dials]
    rw [hb]
    rcases requestStage_cases dial rest with ⟨_, hr⟩ | ⟨_, _, _, _, _, _, _, hr⟩
      | ⟨cmd, atyp, _, _, _, hr⟩ | ⟨atyp, _, _, _, _, hr⟩ | ⟨_, _, _, hr⟩
      | ⟨a, b, c, d, hi, lo, _, _, hr⟩ | ⟨_, hr⟩ | ⟨_, _, _, _, hr⟩ | ⟨_, _, _, _, _, hr⟩
      | ⟨len, name, hi, lo, _, _, _, _, hr⟩
    · rw [hr]; simp [Session.ofBody, Run.after, write, List.count_cons, dials]
    · rw [hr]; simp [Session.ofBody, Run.after, write, List.count_cons, dials]
    · rw [hr]; simp [Session.ofBody, Run.after, write, List.count_cons, dials]
    · rw [hr]; simp [Session.ofBody, Run.after, write, List.count_cons, dials]
    · rw [hr]; simp [Session.ofBody, Run.after, write, List.count_cons, dials]
    · rw [hr]
      exact connect [.read 2 [5, n], .read n.val methods, .write [5, 0], .read 4 [5, 1, 0, 1],
        .read 6 [a, b, c, d, hi, lo]] _ _ (by simp [List.count_cons])
        (by simp [List.count_cons]) (by simp [dials])
    · rw [hr]; simp [Session.ofBody, Run.after, write, List.count_cons, dials]
    · rw [hr]; simp [Session.ofBody, Run.after, write, List.count_cons, dials]
    · rw [hr]; simp [Session.ofBody, Run.after, write, List.count_cons, dials]
    · rw [hr]
      exact connect [.read 2 [5, n], .read n.val methods, .write [5, 0], .read 4 [5, 1, 0, 3],
        .read 1 [len], .read (len.val + 2) (name ++ [hi, lo])] _ _ (by simp [List.count_cons])
        (by simp [List.count_cons]) (by simp [dials])
  refine ⟨main.1, ?_, main.2.1, main.2.2, ?_⟩
  · simp [handleConnection]
  · intro v hv
    simp [handleConnection, hv]

/-- Witness for C12: a backend whose remote address is `[::1]:80` makes
`packNetAddr` panic; the panic is recovered and both sockets are closed
once. -/
theorem sockets_closed_once_witness :
    (handleConnectionBody (fun _ => some ⟨ascii "[::1]:80", ascii "[::1]:50000"⟩)
        [5, 1, 0, 5, 1, 0, 3, 1, 120, 0, 80]).exit
      = .panicked (.invalidAddress (ascii "[::1]:80"))
    ∧ (handleConnection (fun _ => some ⟨ascii "[::1]:80", ascii "[::1]:50000"⟩)
        [5, 1, 0, 5, 1, 0, 3, 1, 120, 0, 80]).recovered
      = some (.invalidAddress (ascii "[::1]:80"))
    ∧ (handleConnection (fun _ => some ⟨ascii "[::1]:80", ascii "[::1]:50000"⟩)
        [5, 1, 0, 5, 1, 0, 3, 1, 120, 0, 80]).trace.count .closeFront = 1 :=
  ⟨by decide,
   (sockets_closed_once (fun _ => some ⟨ascii "[::1]:80", ascii "[::1]:50000"⟩)
      [5, 1, 0, 5, 1, 0, 3, 1, 120, 0, 80]).2.2.2.2 _ (by decide),
   (sockets_closed_once (fun _ => some ⟨ascii "[::1]:80", ascii "[::1]:50000"⟩)
      [5, 1, 0, 5, 1, 0, 3, 1, 120, 0, 80]).1⟩

/-! ## The relay of one direction -/

theorem take_goCopy (buf c : List Byte) (h : c.length ≤ buf.length) :
    (goCopy buf c).take c.length = c := by
  unfold goCopy
  rw [List.take_of_length_le h, List.take_left']
  rfl

/-- The relay of the chunks of a source whose writes are all accepted. -/
theorem iobridgeLoop_chunked (dst : Nat → Option IOErr) (chunks : List (List Byte))
    (rest : List ReadResult) (buf : List Byte) (i : Nat) (hbuf : buf.length = 8192)
    (hc : ∀ c ∈ chunks, c.length ≤ 8192) (hdst : ∀ j, j < chunks.length → dst (i + j) = none) :
    ∃ buf1, buf1.length = 8192 ∧
      iobridgeLoop dst (chunked chunks rest) buf i
        = relayed chunks ++ iobridgeLoop dst rest buf1 (i + chunks.length) := by
  induction chunks generalizing buf i with
  | nil => exact ⟨buf, hbuf, by simp [chunked, relayed]⟩
  | cons c chunks ih =>
    have hcl : c.length ≤ buf.length := by
      rw [hbuf]; exact hc c (by simp)
    have h0 : dst i = none := by
      have := hdst 0 (by simp)
      simpa using this
    obtain ⟨buf1, hb1, hloop⟩ := ih (goCopy buf c) (i + 1) (by rw [goCopy_length, hbuf])
      (fun x hx => hc x (List.mem_cons_of_mem c hx))
      (fun j hj => by
        have := hdst (j + 1) (by simp; omega)
        rw [← this]; congr 1; omega)
    refine ⟨buf1, hb1, ?_⟩
    have e : chunked (c :: chunks) rest = ⟨c, none⟩ :: chunked chunks rest := rfl
    rw [e, iobridgeLoop]
    simp only [h0, take_goCopy buf c hcl, hloop, relayed, List.length_cons]
    simp [Nat.add_assoc, Nat.add_comm 1]

theorem bridgeWrites_append (t u : List BridgeEvent) :
    bridgeWrites (t ++ u) = bridgeWrites t ++ bridgeWrites u := by
  induction t with
  | nil => rfl
  | cons e t ih => cases e <;> simp [bridgeWrites, ih]

theorem bridgeReads_append (t u : List BridgeEvent) :
    bridgeReads (t ++ u) = bridgeReads t + bridgeReads u := by
  induction t with
  | nil => simp [bridgeReads]
  | cons e t ih =>
    cases e
    all_goals simp [bridgeReads, ih]
    all_goals omega

theorem bridgeWrites_relayed (chunks : List (List Byte)) :
    bridgeWrites (relayed chunks) = chunks := by
  induction chunks with
  | nil => rfl
  | cons c chunks ih => simp [relayed, bridgeWrites, ih]

theorem bridgeReads_relayed (chunks : List (List Byte)) :
    bridgeReads (relayed chunks) = chunks.length := by
  induction chunks with
  | nil => rfl
  | cons c chunks ih => simp [relayed, bridgeReads, ih]

theorem iobridgeLoop_signal (dst : Nat → Option IOErr) (src : List ReadResult)
    (buf : List Byte) (i : Nat) : (iobridgeLoop dst src buf i).count .signal = 0 := by
  induction src generalizing buf i with
  | nil => simp [iobridgeLoop, List.count_cons]
  | cons r src ih =>
    rw [iobridgeLoop]
    cases r.err with
    | some err =>
      simp only []
      split <;> simp [List.count_cons]
    | none =>
      simp only []
      cases dst i with
      | some e => simp [List.count_cons]
      | none => simp [List.count_cons, ih]

/-- C13: one direction of the relay.  For a source whose reads return the
chunks `chunks`, each of at most 8192 bytes, and then end the stream (by a
read with an error, or by end of stream) and a destination that accepts every
write, the slices handed to the destination are exactly `chunks`, in order, so
their concatenation is that of the chunks.  When the destination accepts the
first writes and fails on the write of the chunk `c`, the slices handed over
are exactly the chunks up to and including `c`, and the number of reads is the
number of those chunks: the source is not read again.  On every source and
destination the trace holds exactly one send on the shutdown channel, as its
last operation. -/
theorem relay_fidelity :
    (∀ (chunks : List (List Byte)) (d : List Byte) (e : IOErr),
      (∀ c ∈ chunks, c.length ≤ 8192) →
      bridgeWrites (iobridge (chunked chunks [⟨d, some e⟩]) (fun _ => none)) = chunks
      ∧ bridgeWrites (iobridge (chunked chunks []) (fun _ => none)) = chunks
      ∧ (bridgeWrites (iobridge (chunked chunks [⟨d, some e⟩]) (fun _ => none))).flatten
          = chunks.flatten)
    ∧ (∀ (chunks : List (List Byte)) (c : List Byte) (more : List ReadResult)
        (dst : Nat → Option IOErr) (e : IOErr),
      (∀ x ∈ chunks, x.length ≤ 8192) → c.length ≤ 8192 →
      (∀ j, j < chunks.length → dst j = none) → dst chunks.length = some e →
      bridgeWrites (iobridge (chunked (chunks ++ [c]) more) dst) = chunks ++ [c]
      ∧ bridgeReads (iobridge (chunked (chunks ++ [c]) more) dst) = chunks.length + 1)
    ∧ (∀ (src : List ReadResult) (dst : Nat → Option IOErr),
      (iobridge src dst).count .signal = 1
      ∧ (iobridge src dst).getLast? = some .signal) := by
  have hzero : (List.replicate 8192 (0 : Byte)).length = 8192 := List.length_replicate _ _
  have ended : ∀ (d : List Byte) (e : IOErr) (buf : List Byte) (i : Nat),
      bridgeWrites (iobridgeLoop (fun _ => none) [⟨d, some e⟩] buf i) = [] := by
    intro d e buf i
    rw [iobridgeLoop]
    simp only []
    split <;> rfl
  have whole : ∀ (chunks : List (List Byte)) (d : List Byte) (e : IOErr),
      (∀ c ∈ chunks, c.length ≤ 8192) →
      bridgeWrites (iobridge (chunked chunks [⟨d, some e⟩]) (fun _ => none)) = chunks := by
    intro chunks d e hc
    obtain ⟨buf1, _, hloop⟩ := iobridgeLoop_chunked (fun _ => none) chunks [⟨d, some e⟩]
      (List.replicate 8192 0) 0 hzero hc (fun _ _ => rfl)
    rw [iobridge, hloop]
    simp only [bridgeWrites_append, bridgeWrites_relayed, ended]
    simp [bridgeWrites]
  refine ⟨fun chunks d e hc => ⟨whole chunks d e hc, ?_, by rw [whole chunks d e hc]⟩, ?_, ?_⟩
  · obtain ⟨buf1, _, hloop⟩ := iobridgeLoop_chunked (fun _ => none) chunks []
      (List.replicate 8192 0) 0 hzero hc (fun _ _ => rfl)
    rw [iobridge, hloop]
    simp [bridgeWrites_append, bridgeWrites_relayed, iobridgeLoop, bridgeWrites]
  · intro chunks c more dst e hc hcl hacc hfail
    obtain ⟨buf1, hb1, hloop⟩ := iobridgeLoop_chunked dst chunks (⟨c, none⟩ :: more)
      (List.replicate 8192 0) 0 hzero hc (fun j hj => by simpa using hacc j hj)
    have e1 : chunked (chunks ++ [c]) more = chunked chunks (⟨c, none⟩ :: more) := by
      simp [chunked]
    have hfail1 : dst (0 + chunks.length) = some e := by simpa using hfail
    rw [e1, iobridge, hloop, iobridgeLoop]
    simp only [hfail1, take_goCopy buf1 c (by omega)]
    constructor
    · simp [bridgeWrites_append, bridgeWrites_relayed, bridgeWrites]
    · simp [bridgeReads_append, bridgeReads_relayed, bridgeReads]
  · intro src dst
    constructor
    · rw [iobridge, List.count_append, iobridgeLoop_signal]
      simp
    · rw [iobridge]
      exact List.getLast?_concat _

/-- Witness for C13: a source of the chunks `[1, 2]`, `[3]`, `[4]`; with a
destination that accepts every write all three are handed over, and with one
that fails on its second write only the first two are. -/
theorem relay_fidelity_witness :
    (∀ c ∈ ([[1, 2], [3], [4]] : List (List Byte)), c.length ≤ 8192)
    ∧ (∀ x ∈ ([[1, 2]] : List (List Byte)), x.length ≤ 8192)
    ∧ ([3] : List Byte).length ≤ 8192
    ∧ bridgeWrites (iobridge (chunked [[1, 2], [3], [4]] [⟨[], some .closedConn⟩])
        (fun _ => none)) = [[1, 2], [3], [4]]
    ∧ bridgeWrites (iobridge (chunked ([[1, 2]] ++ [[3]]) [⟨[4], none⟩])
        (fun j => if j = 1 then some .other else none)) = [[1, 2]] ++ [[3]]
    ∧ bridgeReads (iobridge (chunked ([[1, 2]] ++ [[3]]) [⟨[4], none⟩])
        (fun j => if j = 1 then some .other else none)) = 2 :=
  ⟨by decide, by decide, by decide,
   (relay_fidelity.1 [[1, 2], [3], [4]] [] .closedConn (by decide)).1,
   (relay_fidelity.2.1 [[1, 2]] [3] [⟨[4], none⟩] (fun j => if j = 1 then some .other else none)
      .other (by decide) (by decide) (by decide) (by decide)).1,
   (relay_fidelity.2.1 [[1, 2]] [3] [⟨[4], none⟩] (fun j => if j = 1 then some .other else none)
      .other (by decide) (by decide) (by decide) (by decide)).2⟩

/-! ## The address codec -/

theorem packNetAddr_sprintfIPv4_buf (a b c d : Byte) (p : Nat) (hp : p < 65536)
    (x0 x1 x2 x3 x4 x5 : Byte) :
    packNetAddr (sprintfIPv4 a b c d p) [x0, x1, x2, x3, x4, x5]
      = .ok [a, b, c, d, ⟨p / 256, by omega⟩, ⟨p % 256, by omega⟩] := by
  have h58 : ¬ IsDigit 58 := by decide
  have hip : (58 : Byte) ∉
      itoa a.val ++ [46] ++ itoa b.val ++ [46] ++ itoa c.val ++ [46] ++ itoa d.val := by
    simp [not_mem_itoa _ _ h58]
  have hsplit : split 58 (sprintfIPv4 a b c d p)
      = [itoa a.val ++ [46] ++ itoa b.val ++ [46] ++ itoa c.val ++ [46] ++ itoa d.val,
         itoa p] := by
    unfold sprintfIPv4
    rw [List.append_assoc _ [58] (itoa p), List.singleton_append, split_append 58 _ _ hip,
      split_self 58 _ (not_mem_itoa p 58 h58)]
  have hport : atoi (itoa p) = some (p : Int) := atoi_itoa p (by omega)
  have hdiv : ((p : Int).tdiv 256) = ((p / 256 : Nat) : Int) := (Int.ofNat_tdiv p 256).symm
  have hmod : ((p : Int).tmod 256) = ((p % 256 : Nat) : Int) := (Int.ofNat_tmod p 256).symm
  simp only [packNetAddr, hsplit, hport, parseIPTo4_quad, hdiv, hmod,
    toByte_natCast (p / 256) (by omega), toByte_natCast (p % 256) (by omega)]
  rfl

/-- C19: for every six bytes `a, b, c, d, hi, lo`, the string the IPv4 request
decoder builds from them, handed to `packNetAddr` with any buffer of six
bytes, comes back as exactly `[a, b, c, d, hi, lo]`; the two quotients
`port / 256` and `port % 256` of the parsed port are `hi` and `lo` themselves,
so the conversions to `byte` cut nothing off. -/
theorem codec_round_trip (a b c d hi lo x0 x1 x2 x3 x4 x5 : Byte) :
    packNetAddr (sprintfIPv4 a b c d (hi.val * 256 + lo.val)) [x0, x1, x2, x3, x4, x5]
      = .ok [a, b, c, d, hi, lo]
    ∧ atoi (itoa (hi.val * 256 + lo.val)) = some ((hi.val * 256 + lo.val : Nat) : Int)
    ∧ (((hi.val * 256 + lo.val : Nat) : Int).tdiv 256) = (hi.val : Int)
    ∧ (((hi.val * 256 + lo.val : Nat) : Int).tmod 256) = (lo.val : Int) := by
  have hp : hi.val * 256 + lo.val < 65536 := by omega
  have hq : (hi.val * 256 + lo.val) / 256 = hi.val := by omega
  have hr : (hi.val * 256 + lo.val) % 256 = lo.val := by omega
  refine ⟨?_, atoi_itoa _ (by omega), ?_, ?_⟩
  · rw [packNetAddr_sprintfIPv4_buf a b c d _ hp]
    simp only [hq, hr]
  · exact ((Int.ofNat_tdiv (hi.val * 256 + lo.val) 256).symm).trans (congrArg Nat.cast hq)
  · exact ((Int.ofNat_tmod (hi.val * 256 + lo.val) 256).symm).trans (congrArg Nat.cast hr)

/-- C14, the code at the failing inputs: on the bracketed IPv6 addresses
`[1:2::3]:80` and `[2001:4860:4860::8888]:443` the function `packNetAddr`
does not panic.  It takes the second piece of the split on `:` for the port
and leaves the four address bytes untouched, so the handler writes a success
reply with the address `0.0.0.0` and the port 2 (or 4860).  On `[::1]:80` it
does panic, because there the second piece is empty. -/
theorem packNetAddr_ipv6 :
    packNetAddr (ascii "[1:2::3]:80") [0, 0, 0, 0, 0, 0] = .ok [0, 0, 0, 0, 0, 2]
    ∧ packNetAddr (ascii "[2001:4860:4860::8888]:443") [0, 0, 0, 0, 0, 0]
        = .ok [0, 0, 0, 0, 0x12, 0xfc]
    ∧ packNetAddr (ascii "[::1]:80") [0, 0, 0, 0, 0, 0]
        = .error (.invalidAddress (ascii "[::1]:80"))
    ∧ handleConnection (fun _ => some ⟨ascii "[1:2::3]:80", ascii "[1:2::9]:50000"⟩)
        [5, 1, 0, 5, 1, 0, 3, 1, 120, 0, 80]
      = ⟨[.read 2 [5, 1], .read 1 [0], .write [5, 0], .read 4 [5, 1, 0, 3], .read 1 [1],
          .read 3 [120, 0, 80], .dial (ascii "x:80"),
          .write [5, 0, 0, 1, 0, 0, 0, 0, 0, 2],
          .spawn .frontToBack, .spawn .backToFront, .awaitShutdown, .closeBack,
          .closeFront], none⟩ := by
  refine ⟨?_, ?_, ?_, ?_⟩
  · rfl
  · rfl
  · rfl
  · decide

/-! ## The end-to-end scenario -/

/-- C16 as stated fails: with a backend connection to `127.0.0.1:8080` whose
local port is 50000, the reply carries the port bytes `0x1F, 0x90` of the
remote port 8080, not the bytes `0xC3, 0x50` of the local port. -/
theorem bound_port_counterexample :
    writes (handleConnection
        (fun _ => some ⟨ascii "127.0.0.1:8080", ascii "127.0.0.1:50000"⟩)
        [5, 1, 0, 5, 1, 0, 1, 127, 0, 0, 1, 0x1f, 0x90]).trace
      = [[5, 0], [5, 0, 0, 1, 127, 0, 0, 1, 0x1f, 0x90]]
    ∧ writes (handleConnection
        (fun _ => some ⟨ascii "127.0.0.1:8080", ascii "127.0.0.1:50000"⟩)
        [5, 1, 0, 5, 1, 0, 1, 127, 0, 0, 1, 0x1f, 0x90]).trace
      ≠ [[5, 0], [5, 0, 0, 1, 127, 0, 0, 1, 0xc3, 0x50]] := by
  constructor <;> decide

/-- C16 as amended: when the client sends `[5, 1, 0]` and then the CONNECT
request for 127.0.0.1:8080, and the dial succeeds with a connection whose
remote address is `127.0.0.1:8080`, the writes are `[5, 0]` followed by
`[5, 0, 0, 1, 127, 0, 0, 1, 0x1F, 0x90]`: the port bytes are those of the
remote port 8080, for every local address of the connection. -/
theorem bound_port_is_remote (dial : Dialer) (localAddr : GoString) (rest : List Byte)
    (hd : dial (ascii "127.0.0.1:8080") = some ⟨ascii "127.0.0.1:8080", localAddr⟩) :
    writes (handleConnection dial
        ([5, 1, 0] ++ [5, 1, 0, 1, 127, 0, 0, 1, 0x1f, 0x90] ++ rest)).trace
      = [[5, 0], [5, 0, 0, 1, 127, 0, 0, 1, 0x1f, 0x90]] := by
  have e : ascii "127.0.0.1:8080"
      = sprintfIPv4 127 0 0 1 ((0x1f : Byte).val * 256 + (0x90 : Byte).val) := by
    decide
  rw [e] at hd
  have hpack : packNetAddr (sprintfIPv4 127 0 0 1 ((0x1f : Byte).val * 256 + (0x90 : Byte).val))
      [0, 0, 0, 0, 0, 0] = .ok [127, 0, 0, 1, 0x1f, 0x90] :=
    (packNetAddr_sprintfIPv4 127 0 0 1 _ (by decide)).trans rfl
  have h := handleConnection_accept dial 1 [0]
    (5 :: 1 :: 0 :: 1 :: 127 :: 0 :: 0 :: 1 :: 0x1f :: 0x90 :: rest) (by decide) (by decide)
  rw [show ([5, 1, 0] ++ [5, 1, 0, 1, 127, 0, 0, 1, 0x1f, 0x90] ++ rest : List Byte)
      = 5 :: 1 :: ([0] ++ 5 :: 1 :: 0 :: 1 :: 127 :: 0 :: 0 :: 1 :: 0x1f :: 0x90 :: rest)
    from rfl, h, requestStage_ipv4, performConnect_ok dial _ _ _ hd hpack]
  rfl

/-- Witness for C16 as amended: the local port 50000. -/
theorem bound_port_is_remote_witness :
    (fun _ => some ⟨ascii "127.0.0.1:8080", ascii "127.0.0.1:50000"⟩ : Dialer)
        (ascii "127.0.0.1:8080")
      = some ⟨ascii "127.0.0.1:8080", ascii "127.0.0.1:50000"⟩
    ∧ writes (handleConnection
        (fun _ => some ⟨ascii "127.0.0.1:8080", ascii "127.0.0.1:50000"⟩)
        ([5, 1, 0] ++ [5, 1, 0, 1, 127, 0, 0, 1, 0x1f, 0x90] ++ [71, 69, 84])).trace
      = [[5, 0], [5, 0, 0, 1, 127, 0, 0, 1, 0x1f, 0x90]] :=
  ⟨rfl, bound_port_is_remote _ (ascii "127.0.0.1:50000") [71, 69, 84] rfl⟩

/-! ## The bytes consumed and the condition of a dial -/

theorem consumed_performConnect (dial : Dialer) (backend : GoString) :
    ∃ post, (performConnect dial backend).trace = .dial backend :: post ∧ consumed post = 0 := by
  rcases performConnect_cases dial backend with ⟨_, hp⟩ | ⟨_, _, _, _, hp⟩
    | ⟨_, a, b, c, d, hi, lo, _, _, hp⟩ <;>
  · rw [hp]
    exact ⟨_, rfl, rfl⟩

/-- C15: the number of client bytes obtained by the handshake.  After a
greeting of `n` methods, a CONNECT request with an IPv4 address has consumed
`2 + n + 4 + 6` bytes when the backend connector is called, one with a domain
name of `len` bytes `2 + n + 4 + 1 + len + 2`, and the handler reads nothing
after that call; the target dialed is built from the bytes of the request
alone, whatever bytes `rest` follow it.  A greeting without an acceptable
method consumes `2 + n` bytes, a request with an unsupported command or
address type `2 + n + 4`. -/
theorem exact_consumption (dial : Dialer) (n : Byte) (methods rest : List Byte)
    (hlen : methods.length = n.val) :
    ((0 : Byte) ∈ methods → ∀ a b c d hi lo : Byte, ∃ post,
      (handleConnection dial
        (5 :: n :: (methods ++ 5 :: 1 :: 0 :: 1 :: a :: b :: c :: d :: hi :: lo :: rest))).trace
        = [.read 2 [5, n], .read n.val methods, .write [5, 0], .read 4 [5, 1, 0, 1],
            .read 6 [a, b, c, d, hi, lo]]
          ++ .dial (sprintfIPv4 a b c d (hi.val * 256 + lo.val)) :: post
      ∧ consumed [.read 2 [5, n], .read n.val methods, .write [5, 0], .read 4 [5, 1, 0, 1],
            .read 6 [a, b, c, d, hi, lo]] = 2 + n.val + 4 + 6
      ∧ consumed post = 0)
    ∧ ((0 : Byte) ∈ methods → ∀ (len hi lo : Byte) (name : List Byte),
      name.length = len.val → len.val ≤ 253 → ∃ post,
      (handleConnection dial
        (5 :: n :: (methods ++ 5 :: 1 :: 0 :: 3 :: len :: (name ++ hi :: lo :: rest)))).trace
        = [.read 2 [5, n], .read n.val methods, .write [5, 0], .read 4 [5, 1, 0, 3],
            .read 1 [len], .read (len.val + 2) (name ++ [hi, lo])]
          ++ .dial (sprintfDomain name (hi.val * 256 + lo.val)) :: post
      ∧ consumed [.read 2 [5, n], .read n.val methods, .write [5, 0], .read 4 [5, 1, 0, 3],
            .read 1 [len], .read (len.val + 2) (name ++ [hi, lo])]
          = 2 + n.val + 4 + 1 + len.val + 2
      ∧ consumed post = 0)
    ∧ ((0 : Byte) ∉ methods →
      consumed (handleConnection dial (5 :: n :: (methods ++ rest))).trace = 2 + n.val)
    ∧ ((0 : Byte) ∈ methods → ∀ cmd atyp : Byte, cmd ≠ 1 →
      consumed (handleConnection dial
        (5 :: n :: (methods ++ 5 :: cmd :: 0 :: atyp :: rest))).trace = 2 + n.val + 4)
    ∧ ((0 : Byte) ∈ methods → ∀ atyp : Byte, atyp ≠ 1 → atyp ≠ 3 →
      consumed (handleConnection dial
        (5 :: n :: (methods ++ 5 :: 1 :: 0 :: atyp :: rest))).trace = 2 + n.val + 4) := by
  refine ⟨?_, ?_, ?_, ?_, ?_⟩
  · intro h0 a b c d hi lo
    obtain ⟨post, hp, hc⟩ :=
      consumed_performConnect dial (sprintfIPv4 a b c d (hi.val * 256 + lo.val))
    refine ⟨post ++ [.closeFront], ?_, ?_, ?_⟩
    · rw [handleConnection_accept dial n methods _ hlen h0, requestStage_ipv4]
      simp only [Run.after, hp]
      simp
    · simp [consumed, hlen]
      omega
    · rw [consumed_append, hc]
      rfl
  · intro h0 len hi lo name hname h253
    obtain ⟨post, hp, hc⟩ :=
      consumed_performConnect dial (sprintfDomain name (hi.val * 256 + lo.val))
    refine ⟨post ++ [.closeFront], ?_, ?_, ?_⟩
    · rw [handleConnection_accept dial n methods _ hlen h0,
        requestStage_domain_full dial len hi lo name rest hname h253]
      simp only [Run.after, hp]
      simp
    · simp [consumed, hlen, hname]
      omega
    · rw [consumed_append, hc]
      rfl
  · intro h0
    have hs : supportLoop methods = false := by
      cases h : supportLoop methods
      · rfl
      · exact absurd ((supportLoop_iff methods).mp h) h0
    rw [handleConnection_eq, handleConnectionBody_greeting dial n methods rest hlen, hs]
    simp [Session.ofBody, Run.after, write, Run.ret, consumed, hlen]
  · intro h0 cmd atyp hcmd
    rw [handleConnection_accept dial n methods _ hlen h0, requestStage_header]
    simp [hcmd, write, Run.after, Run.ret, consumed, hlen]
    omega
  · intro h0 atyp h1 h3
    rw [handleConnection_accept dial n methods _ hlen h0, requestStage_header]
    simp [h1, h3, write, Run.after, Run.ret, consumed, hlen]
    omega

/-- Witness for C15: a greeting of two methods, then a request for the name
`ab` followed by three more bytes; and a greeting without method 0. -/
theorem exact_consumption_witness :
    ([2, 0] : List Byte).length = (2 : Byte).val ∧ (0 : Byte) ∈ ([2, 0] : List Byte)
    ∧ ([97, 98] : List Byte).length = (2 : Byte).val ∧ (2 : Byte).val ≤ 253
    ∧ ([1, 2] : List Byte).length = (2 : Byte).val ∧ (0 : Byte) ∉ ([1, 2] : List Byte)
    ∧ (∃ post,
      (handleConnection (fun _ => none)
        (5 :: 2 :: ([2, 0] ++ 5 :: 1 :: 0 :: 3 :: 2 :: ([97, 98] ++ 0 :: 80 :: [7, 8, 9])))).trace
        = [.read 2 [5, 2], .read (2 : Byte).val [2, 0], .write [5, 0], .read 4 [5, 1, 0, 3],
            .read 1 [2], .read ((2 : Byte).val + 2) ([97, 98] ++ [0, 80])]
          ++ .dial (sprintfDomain [97, 98] ((0 : Byte).val * 256 + (80 : Byte).val)) :: post
      ∧ consumed [.read 2 [5, 2], .read (2 : Byte).val [2, 0], .write [5, 0],
            .read 4 [5, 1, 0, 3], .read 1 [2],
            .read ((2 : Byte).val + 2) ([97, 98] ++ [0, 80])]
          = 2 + (2 : Byte).val + 4 + 1 + (2 : Byte).val + 2
      ∧ consumed post = 0)
    ∧ consumed (handleConnection (fun _ => none) (5 :: 2 :: ([1, 2] ++ [5, 1, 0, 1]))).trace
        = 2 + (2 : Byte).val :=
  ⟨by decide, by decide, by decide, by decide, by decide, by decide,
   (exact_consumption (fun _ => none) 2 [2, 0] [7, 8, 9] (by decide)).2.1 (by decide)
     2 0 80 [97, 98] (by decide) (by decide),
   (exact_consumption (fun _ => none) 2 [1, 2] [5, 1, 0, 1] (by decide)).2.2.1 (by decide)⟩

/-- C18: for every client stream and every dialer the handler dials at most
once, and a target is dialed only when the stream begins with a greeting of
version 5 whose `n` method bytes are all there and contain `0x00`, followed by
a request header `[5, 1, 0, atyp]` with `atyp` 1 or 3 and by the whole
address: six bytes, or a length byte of at most 253 and that many bytes plus
two.  The target is then the one decoded from that address.  On every other
stream nothing is dialed. -/
theorem dial_requires_handshake (dial : Dialer) (input : List Byte) :
    (dials (handleConnection dial input).trace).length ≤ 1
    ∧ ∀ target ∈ dials (handleConnection dial input).trace,
      ∃ (n : Byte) (methods rest : List Byte),
        input = 5 :: n :: (methods ++ rest) ∧ methods.length = n.val ∧ (0 : Byte) ∈ methods
        ∧ ((∃ (a b c d hi lo : Byte) (r : List Byte),
              rest = 5 :: 1 :: 0 :: 1 :: a :: b :: c :: d :: hi :: lo :: r
              ∧ target = sprintfIPv4 a b c d (hi.val * 256 + lo.val))
          ∨ (∃ (len hi lo : Byte) (name r : List Byte),
              rest = 5 :: 1 :: 0 :: 3 :: len :: (name ++ hi :: lo :: r)
              ∧ name.length = len.val ∧ len.val ≤ 253
              ∧ target = sprintfDomain name (hi.val * 256 + lo.val))) := by
  have connect : ∀ (pre : List Event) (backend : GoString) (x : Exit), dials pre = [] →
      dials (Session.ofBody ⟨pre ++ (performConnect dial backend).trace, x⟩).trace
        = [backend] := by
    intro pre backend x hpre
    have hd := dials_performConnect dial backend
    generalize performConnect dial backend = r at hd
    simp [Session.ofBody, dials_append, hpre, hd, dials]
  rw [handleConnection_eq]
  rcases handleConnectionBody_cases dial input with ⟨_, hb⟩ | ⟨v, n, r, _, _, hb⟩
    | ⟨n, part, _, _, hb⟩ | ⟨n, methods, rest, _, _, _, hb⟩
    | ⟨n, methods, rest, hin, hlen, h0, hb⟩
  · rw [hb]; simp [Session.ofBody, dials]
  · rw [hb]; simp [Session.ofBody, dials]
  · rw [hb]; simp [Session.ofBody, dials]
  · rw [hb]; simp [Session.ofBody, dials]
  rw [hb]
  rcases requestStage_cases dial rest with ⟨_, hr⟩ | ⟨_, _, _, _, _, _, _, hr⟩
    | ⟨cmd, atyp, _, _, _, hr⟩ | ⟨atyp, _, _, _, _, hr⟩ | ⟨_, _, _, hr⟩
    | ⟨a, b, c, d, hi, lo, r, hrest, hr⟩ | ⟨_, hr⟩ | ⟨_, _, _, _, hr⟩ | ⟨_, _, _, _, _, hr⟩
    | ⟨len, name, hi, lo, r, hrest, hname, h253, hr⟩
  · rw [hr]; simp [Session.ofBody, Run.after, write, dials]
  · rw [hr]; simp [Session.ofBody, Run.after, write, dials]
  · rw [hr]; simp [Session.ofBody, Run.after, write, dials]
  · rw [hr]; simp [Session.ofBody, Run.after, write, dials]
  · rw [hr]; simp [Session.ofBody, Run.after, write, dials]
  · rw [hr]
    have hd : dials (Session.ofBody (Run.after (.read 2 [5, n])
        (Run.after (.read n.val methods) (write [5, 0] (Run.after (.read 4 [5, 1, 0, 1])
          (Run.after (.read 6 [a, b, c, d, hi, lo])
            (performConnect dial (sprintfIPv4 a b c d (hi.val * 256 + lo.val))))))))).trace
        = [sprintfIPv4 a b c d (hi.val * 256 + lo.val)] :=
      connect [.read 2 [5, n], .read n.val methods, .write [5, 0],
        .read 4 [5, 1, 0, 1], .read 6 [a, b, c, d, hi, lo]]
        (sprintfIPv4 a b c d (hi.val * 256 + lo.val))
        (performConnect dial (sprintfIPv4 a b c d (hi.val * 256 + lo.val))).exit
        (by simp [dials])
    rw [hd]
    refine ⟨by simp, fun target ht => ?_⟩
    have ht1 : target = sprintfIPv4 a b c d (hi.val * 256 + lo.val) := by
      simpa using ht
    exact ⟨n, methods, rest, hin, hlen, h0, Or.inl ⟨a, b, c, d, hi, lo, r, hrest, ht1⟩⟩
  · rw [hr]; simp [Session.ofBody, Run.after, write, dials]
  · rw [hr]; simp [Session.ofBody, Run.after, write, dials]
  · rw [hr]; simp [Session.ofBody, Run.after, write, dials]
  · rw [hr]
    have hd : dials (Session.ofBody (Run.after (.read 2 [5, n])
        (Run.after (.read n.val methods) (write [5, 0] (Run.after (.read 4 [5, 1, 0, 3])
          (Run.after (.read 1 [len]) (Run.after (.read (len.val + 2) (name ++ [hi, lo]))
            (performConnect dial (sprintfDomain name (hi.val * 256 + lo.val)))))))))).trace
        = [sprintfDomain name (hi.val * 256 + lo.val)] :=
      connect [.read 2 [5, n], .read n.val methods, .write [5, 0],
        .read 4 [5, 1, 0, 3], .read 1 [len], .read (len.val + 2) (name ++ [hi, lo])]
        (sprintfDomain name (hi.val * 256 + lo.val))
        (performConnect dial (sprintfDomain name (hi.val * 256 + lo.val))).exit
        (by simp [dials])
    rw [hd]
    refine ⟨by simp, fun target ht => ?_⟩
    have ht1 : target = sprintfDomain name (hi.val * 256 + lo.val) := by
      simpa using ht
    exact ⟨n, methods, rest, hin, hlen, h0,
      Or.inr ⟨len, hi, lo, name, r, hrest, hname, h253, ht1⟩⟩

/-- Witness for C18: the target `127.0.0.1:8080` is dialed on a complete
CONNECT request, and the stream begins with an accepted greeting. -/
theorem dial_requires_handshake_witness :
    ascii "127.0.0.1:8080" ∈ dials (handleConnection (fun _ => none)
        [5, 1, 0, 5, 1, 0, 1, 127, 0, 0, 1, 0x1f, 0x90]).trace
    ∧ ∃ (n : Byte) (methods rest : List Byte),
        ([5, 1, 0, 5, 1, 0, 1, 127, 0, 0, 1, 0x1f, 0x90] : List Byte)
          = 5 :: n :: (methods ++ rest) ∧ methods.length = n.val ∧ (0 : Byte) ∈ methods
        ∧ ((∃ (a b c d hi lo : Byte) (r : List Byte),
              rest = 5 :: 1 :: 0 :: 1 :: a :: b :: c :: d :: hi :: lo :: r
              ∧ ascii "127.0.0.1:8080" = sprintfIPv4 a b c d (hi.val * 256 + lo.val))
          ∨ (∃ (len hi lo : Byte) (name r : List Byte),
              rest = 5 :: 1 :: 0 :: 3 :: len :: (name ++ hi :: lo :: r)
              ∧ name.length = len.val ∧ len.val ≤ 253
              ∧ ascii "127.0.0.1:8080" = sprintfDomain name (hi.val * 256 + lo.val))) :=
  ⟨by decide,
   (dial_requires_handshake (fun _ => none)
      [5, 1, 0, 5, 1, 0, 1, 127, 0, 0, 1, 0x1f, 0x90]).2 _ (by decide)⟩

/-- Witness for C11: the session of an unsupported command writes the greeting
reply and one command reply with `rep` 7, and that is one of the four shapes
of the claim. -/
theorem reply_framing_witness :
    writes (handleConnection (fun _ => none) [5, 1, 0, 5, 2, 0, 1]).trace
      = [[5, 0], [5, 7, 0, 1, 0, 0, 0, 0, 0, 0]]
    ∧ (writes (handleConnection (fun _ => none) [5, 1, 0, 5, 2, 0, 1]).trace = []
      ∨ writes (handleConnection (fun _ => none) [5, 1, 0, 5, 2, 0, 1]).trace = [[5, 0xff]]
      ∨ writes (handleConnection (fun _ => none) [5, 1, 0, 5, 2, 0, 1]).trace = [[5, 0]]
      ∨ ∃ rep a b c d hi lo,
          writes (handleConnection (fun _ => none) [5, 1, 0, 5, 2, 0, 1]).trace
            = [[5, 0], [5, rep, 0, 1, a, b, c, d, hi, lo]]
          ∧ (rep = 0 ∨ rep = 5 ∨ rep = 7 ∨ rep = 8)
          ∧ (rep ≠ 0 → a = 0 ∧ b = 0 ∧ c = 0 ∧ d = 0 ∧ hi = 0 ∧ lo = 0)) :=
  ⟨by decide, reply_framing (fun _ => none) [5, 1, 0, 5, 2, 0, 1]⟩

end Socks5
